import Mathlib

/-!
# pkar/social, package `facebook`: batch request and response reconciliation

A verification development for `src/facebook/facebook.go`.

* `requestTypes`, `facebookRequest`, `Request` and `LoadData` are translated
  from the Go source.
* `LoadData` is written against `encoding/json`; the part of that package the
  program exercises is modelled here as well: the syntax check of the scanner
  (`parseJSON`), string unquoting (`unquote`), number conversion
  (`parseFloat`, `parseInt`, `parseUint`) and the type-directed decoder
  (`unmarshal`), which is driven by a description of the Go type of the target
  (`GoType`), so the seven schemas of the source are transcribed as data.
* Go strings and `[]byte` are byte sequences (`Bytes`).
* Calls to the logger (`log.Error`, `log.Errorf`) do not influence any
  returned value and are left out.
-/

set_option autoImplicit false

namespace facebook

/-! ## Bytes and strings -/

/-- Go `[]byte` and Go `string`: a sequence of bytes. -/
abbrev Bytes := List UInt8

/-- The bytes of a string constant of the source (UTF-8). -/
def lit (s : String) : Bytes := s.data.flatMap String.utf8EncodeChar

/-! ## JSON documents -/

/-- A JSON number as it is written: sign, integer digits, the digits after the
point (`frac`, with their count `fracLen`, `0` when there is no fraction) and
the exponent when one is written. -/
structure NumLit where
  neg : Bool
  int : Nat
  frac : Nat
  fracLen : Nat
  exp : Option Int
  deriving DecidableEq, Repr

/-- A syntactically valid JSON document. Object members keep their order and
their duplicates, because the decoder visits them one after the other. -/
inductive JSON where
  | null
  | bool (b : Bool)
  | num (n : NumLit)
  | str (s : Bytes)
  | arr (xs : List JSON)
  | obj (ms : List (Bytes × JSON))
  deriving Repr

/-! ## The scanner of `encoding/json` -/

/-- Scanner `isSpace`: space, tab, carriage return, line feed. -/
def isSpace (c : UInt8) : Bool := c == 32 || c == 9 || c == 13 || c == 10

/-- Drop leading white space. -/
def skipSpace : Bytes → Bytes
  | [] => []
  | c :: cs => if isSpace c then skipSpace cs else c :: cs

/-- The value of a decimal digit byte. -/
def digitVal (c : UInt8) : Option Nat :=
  if 48 ≤ c.toNat ∧ c.toNat ≤ 57 then some (c.toNat - 48) else none

/-- The value of a hexadecimal digit byte, as in `getu4`. -/
def hexVal (c : UInt8) : Option Nat :=
  if 48 ≤ c.toNat ∧ c.toNat ≤ 57 then some (c.toNat - 48)
  else if 97 ≤ c.toNat ∧ c.toNat ≤ 102 then some (c.toNat - 97 + 10)
  else if 65 ≤ c.toNat ∧ c.toNat ≤ 70 then some (c.toNat - 65 + 10)
  else none

/-- Read the longest run of decimal digits: accumulated value, number of
digits read, rest of the input. -/
def readDigits : Bytes → Nat → Nat → Nat × Nat × Bytes
  | [], acc, cnt => (acc, cnt, [])
  | c :: cs, acc, cnt =>
    match digitVal c with
    | some d => readDigits cs (acc * 10 + d) (cnt + 1)
    | none => (acc, cnt, c :: cs)

/-- Integer part of a number: a single `0`, or a digit `1..9` followed by any
digits. -/
def readInt : Bytes → Option (Nat × Bytes)
  | [] => none
  | c :: cs =>
    if c == 48 then some (0, cs)
    else
      match digitVal c with
      | some d => let r := readDigits cs d 1; some (r.1, r.2.2)
      | none => none

/-- Optional fraction: a point followed by at least one digit. -/
def readFrac : Bytes → Option (Nat × Nat × Bytes)
  | 46 :: cs =>
    let r := readDigits cs 0 0
    if r.2.1 = 0 then none else some r
  | cs => some (0, 0, cs)

/-- Optional exponent: `e` or `E`, an optional sign, at least one digit. -/
def readExp : Bytes → Option (Option Int × Bytes)
  | c :: cs =>
    if c == 101 || c == 69 then
      match cs with
      | 43 :: ds =>
        let r := readDigits ds 0 0
        if r.2.1 = 0 then none else some (some (r.1 : Int), r.2.2)
      | 45 :: ds =>
        let r := readDigits ds 0 0
        if r.2.1 = 0 then none else some (some (-(r.1 : Int)), r.2.2)
      | ds =>
        let r := readDigits ds 0 0
        if r.2.1 = 0 then none else some (some (r.1 : Int), r.2.2)
    else some (none, c :: cs)
  | [] => some (none, [])

/-- A number literal at the head of the input. -/
def parseNumber (cs : Bytes) : Option (NumLit × Bytes) :=
  let signed : Bool × Bytes :=
    match cs with
    | 45 :: r => (true, r)
    | r => (false, r)
  match readInt signed.2 with
  | none => none
  | some (i, r1) =>
    match readFrac r1 with
    | none => none
    | some (f, fl, r2) =>
      match readExp r2 with
      | none => none
      | some (e, r3) => some (⟨signed.1, i, f, fl, e⟩, r3)

/-- The raw contents of a string literal, the opening quote already read:
everything up to the closing quote. Control characters are rejected and an
escape must be one of the JSON escapes. -/
def scanString : Bytes → Option (Bytes × Bytes)
  | [] => none
  | 34 :: cs => some ([], cs)
  | 92 :: 117 :: a :: b :: c :: d :: cs =>
    match hexVal a, hexVal b, hexVal c, hexVal d with
    | some _, some _, some _, some _ =>
      (scanString cs).map (fun r => (92 :: 117 :: a :: b :: c :: d :: r.1, r.2))
    | _, _, _, _ => none
  | 92 :: e :: cs =>
    if e == 34 || e == 92 || e == 47 || e == 98 || e == 102 || e == 110 || e == 114 || e == 116
    then (scanString cs).map (fun r => (92 :: e :: r.1, r.2))
    else none
  | c :: cs =>
    if c.toNat < 32 || c == 92 then none
    else (scanString cs).map (fun r => (c :: r.1, r.2))

/-- Go `utf8.EncodeRune`; surrogates and values above U+10FFFF are written as
U+FFFD. -/
def encodeRune (r : Nat) : Bytes :=
  if r < 0x80 then [UInt8.ofNat r]
  else if r < 0x800 then [UInt8.ofNat (0xC0 + r / 64), UInt8.ofNat (0x80 + r % 64)]
  else if (0xD800 ≤ r ∧ r < 0xE000) ∨ 0x10FFFF < r then [0xEF, 0xBF, 0xBD]
  else if r < 0x10000 then
    [UInt8.ofNat (0xE0 + r / 4096), UInt8.ofNat (0x80 + r / 64 % 64), UInt8.ofNat (0x80 + r % 64)]
  else
    [UInt8.ofNat (0xF0 + r / 262144), UInt8.ofNat (0x80 + r / 4096 % 64),
     UInt8.ofNat (0x80 + r / 64 % 64), UInt8.ofNat (0x80 + r % 64)]

/-- A continuation byte `0x80..0xBF`. -/
def isCont (c : UInt8) : Bool := 0x80 ≤ c.toNat && c.toNat ≤ 0xBF

/-- Length of the valid UTF-8 sequence at the head of the input, `0` when the
head is not the start of one (Go `utf8.DecodeRune` then yields `RuneError`
with width 1). -/
def runeLen : Bytes → Nat
  | [] => 0
  | c0 :: rest =>
    let a := c0.toNat
    if a < 0x80 then 1
    else if a < 0xC2 then 0
    else if a < 0xE0 then
      match rest with
      | c1 :: _ => if isCont c1 then 2 else 0
      | _ => 0
    else if a < 0xF0 then
      match rest with
      | c1 :: c2 :: _ =>
        let lo := if a = 0xE0 then 0xA0 else 0x80
        let hi := if a = 0xED then 0x9F else 0xBF
        if lo ≤ c1.toNat ∧ c1.toNat ≤ hi ∧ isCont c2 then 3 else 0
      | _ => 0
    else if a < 0xF5 then
      match rest with
      | c1 :: c2 :: c3 :: _ =>
        let lo := if a = 0xF0 then 0x90 else 0x80
        let hi := if a = 0xF4 then 0x8F else 0xBF
        if lo ≤ c1.toNat ∧ c1.toNat ≤ hi ∧ isCont c2 ∧ isCont c3 then 4 else 0
      | _ => 0
    else 0

/-- The four hexadecimal digits of a `\uXXXX` escape at the head of the
input (Go `getu4`). -/
def getu4 : Bytes → Option Nat
  | 92 :: 117 :: a :: b :: c :: d :: _ =>
    match hexVal a, hexVal b, hexVal c, hexVal d with
    | some x, some y, some z, some w => some (x * 4096 + y * 256 + z * 16 + w)
    | _, _, _, _ => none
  | _ => none

/-- The character of a one-letter escape. -/
def escChar (e : UInt8) : UInt8 :=
  if e == 98 then 8 else if e == 102 then 12 else if e == 110 then 10
  else if e == 114 then 13 else if e == 116 then 9 else e

/-- Go `unquote` on the raw contents of a string literal: escapes are
resolved, a surrogate pair is combined, a lone surrogate and every byte that
is not part of valid UTF-8 become U+FFFD. -/
def unquoteAux : Nat → Bytes → Bytes
  | 0, _ => []
  | _, [] => []
  | fuel + 1, 92 :: 117 :: cs =>
    match getu4 (92 :: 117 :: cs) with
    | none => []
    | some rr =>
      let rest := cs.drop 4
      if 0xD800 ≤ rr ∧ rr < 0xE000 then
        match getu4 rest with
        | some rr1 =>
          if rr < 0xDC00 ∧ 0xDC00 ≤ rr1 ∧ rr1 < 0xE000 then
            encodeRune ((rr - 0xD800) * 1024 + (rr1 - 0xDC00) + 0x10000) ++
              unquoteAux fuel (rest.drop 6)
          else [0xEF, 0xBF, 0xBD] ++ unquoteAux fuel rest
        | none => [0xEF, 0xBF, 0xBD] ++ unquoteAux fuel rest
      else encodeRune rr ++ unquoteAux fuel rest
  | fuel + 1, 92 :: e :: cs => escChar e :: unquoteAux fuel cs
  | _ + 1, [92] => []
  | fuel + 1, c :: cs =>
    if c.toNat < 0x80 then c :: unquoteAux fuel cs
    else
      match runeLen (c :: cs) with
      | 0 => [0xEF, 0xBF, 0xBD] ++ unquoteAux fuel cs
      | n => (c :: cs).take n ++ unquoteAux fuel ((c :: cs).drop n)

/-- Go `unquote`. Every step consumes at least one byte, so the length of the
input is enough fuel. -/
def unquote (raw : Bytes) : Bytes := unquoteAux raw.length raw

/-- Nesting limit of the scanner (`maxNestingDepth`). -/
def maxNestingDepth : Nat := 10000

mutual
/-- One JSON value at the head of the input, white space before it allowed.
`depth` counts the arrays and objects already open. -/
def parseValue : Nat → Nat → Bytes → Option (JSON × Bytes)
  | 0, _, _ => none
  | fuel + 1, depth, cs =>
    match skipSpace cs with
    | [] => none
    | 91 :: r =>
      if maxNestingDepth ≤ depth then none
      else
        match skipSpace r with
        | 93 :: r1 => some (JSON.arr [], r1)
        | _ => (parseElems fuel (depth + 1) r).map (fun p => (JSON.arr p.1, p.2))
    | 123 :: r =>
      if maxNestingDepth ≤ depth then none
      else
        match skipSpace r with
        | 125 :: r1 => some (JSON.obj [], r1)
        | _ => (parseMembers fuel (depth + 1) r).map (fun p => (JSON.obj p.1, p.2))
    | 34 :: r => (scanString r).map (fun p => (JSON.str (unquote p.1), p.2))
    | 116 :: 114 :: 117 :: 101 :: r => some (JSON.bool true, r)
    | 102 :: 97 :: 108 :: 115 :: 101 :: r => some (JSON.bool false, r)
    | 110 :: 117 :: 108 :: 108 :: r => some (JSON.null, r)
    | c :: r => (parseNumber (c :: r)).map (fun p => (JSON.num p.1, p.2))
/-- The elements of an array after `[`, up to and including `]`; at least one
element. -/
def parseElems : Nat → Nat → Bytes → Option (List JSON × Bytes)
  | 0, _, _ => none
  | fuel + 1, depth, cs =>
    match parseValue fuel depth cs with
    | none => none
    | some (x, r) =>
      match skipSpace r with
      | 44 :: r1 => (parseElems fuel depth r1).map (fun p => (x :: p.1, p.2))
      | 93 :: r1 => some ([x], r1)
      | _ => none
/-- The members of an object after `{`, up to and including `}`; at least one
member. -/
def parseMembers : Nat → Nat → Bytes → Option (List (Bytes × JSON) × Bytes)
  | 0, _, _ => none
  | fuel + 1, depth, cs =>
    match skipSpace cs with
    | 34 :: r =>
      match scanString r with
      | none => none
      | some (k, r1) =>
        match skipSpace r1 with
        | 58 :: r2 =>
          match parseValue fuel depth r2 with
          | none => none
          | some (x, r3) =>
            match skipSpace r3 with
            | 44 :: r4 => (parseMembers fuel depth r4).map (fun p => ((unquote k, x) :: p.1, p.2))
            | 125 :: r4 => some ([(unquote k, x)], r4)
            | _ => none
        | _ => none
    | _ => none
end

/-- The scanner run over a whole input (`checkValid`) together with the
document it recognises: one value, white space around it, nothing else. Of
any two nested calls of the three functions above at least one consumes a
byte, so twice the length of the input is enough fuel. -/
def parseJSON (data : Bytes) : Option JSON :=
  match parseValue (2 * data.length + 2) 0 data with
  | none => none
  | some (j, rest) => if skipSpace rest = [] then some j else none

/-! ## Number conversion (`strconv`) and `float64` -/

/-- A finite IEEE 754 binary64 value `(-1)^neg * mant * 2^exp`, with
`mant < 2^53`, `-1074 ≤ exp ≤ 971` and `2^52 ≤ mant` unless `exp = -1074`.
JSON cannot denote an infinity or a NaN. -/
structure Float64 where
  neg : Bool
  mant : Nat
  exp : Int
  deriving DecidableEq, Repr

/-- The exact value of a literal as a fraction `num / den` (sign apart). -/
def NumLit.frac10 (n : NumLit) : Nat × Nat :=
  let m := n.int * 10 ^ n.fracLen + n.frac
  let e : Int := n.exp.getD 0 - (n.fracLen : Int)
  if 0 ≤ e then (m * 10 ^ e.toNat, 1) else (m, 10 ^ (-e).toNat)

/-- The fraction `num / (den * 2^e)` with a natural numerator and
denominator. -/
def scale2 (num den : Nat) (e : Int) : Nat × Nat :=
  if 0 ≤ e then (num, den * 2 ^ e.toNat) else (num * 2 ^ (-e).toNat, den)

/-- The integer nearest to `num / den`, ties to the even one. -/
def roundHalfEven (num den : Nat) : Nat :=
  let q := num / den
  let r := num % den
  if 2 * r < den then q
  else if den < 2 * r then q + 1
  else if q % 2 = 0 then q else q + 1

/-- The position of the highest set bit: `2^(ilog2 n) ≤ n < 2^(ilog2 n + 1)`
for `n > 0`. The first argument bounds the number of halvings. -/
def ilog2Aux : Nat → Nat → Nat
  | 0, _ => 0
  | fuel + 1, n => if n < 2 then 0 else ilog2Aux fuel (n / 2) + 1

/-- The position of the highest set bit of `n`. -/
def ilog2 (n : Nat) : Nat := ilog2Aux n n

/-- Round `num / den` (`den > 0`) to the nearest binary64, ties to even;
`none` when the result is not finite. -/
def roundFloat64 (neg : Bool) (num den : Nat) : Option Float64 :=
  if num = 0 then some ⟨neg, 0, -1074⟩
  else
    let e1 : Int := (ilog2 num : Int) - (ilog2 den : Int) - 53
    let s1 := scale2 num den e1
    let e2 : Int := if s1.2 * 2 ^ 53 ≤ s1.1 then e1 + 1 else e1
    let e : Int := max e2 (-1074)
    let s := scale2 num den e
    let m := roundHalfEven s.1 s.2
    let me : Nat × Int := if m = 2 ^ 53 then (2 ^ 52, e + 1) else (m, e)
    if 971 < me.2 then none else some ⟨neg, me.1, me.2⟩

/-- Go `strconv.ParseFloat(s, 64)` on a JSON number: the nearest binary64, an
error (`none`) when the value is out of range. -/
def parseFloat (n : NumLit) : Option Float64 :=
  roundFloat64 n.neg n.frac10.1 n.frac10.2

/-- Go `strconv.ParseInt(s, 10, 64)` on a JSON number: digits only, within
`int64`. -/
def parseInt (n : NumLit) : Option Int :=
  if n.fracLen = 0 ∧ n.exp = none then
    let v : Int := if n.neg then -(n.int : Int) else (n.int : Int)
    if -(2 ^ 63 : Int) ≤ v ∧ v < 2 ^ 63 then some v else none
  else none

/-- Go `strconv.ParseUint(s, 10, 64)` on a JSON number: no sign, digits only,
within `uint64`. -/
def parseUint (n : NumLit) : Option Nat :=
  if n.neg = false ∧ n.fracLen = 0 ∧ n.exp = none ∧ n.int < 2 ^ 64 then some n.int else none

/-- Go conversion `int(x)` of a `float64` on a 64-bit target: the fraction is
discarded; a value outside `int64` gives the minimum `int64`, which is what
amd64 produces (the language leaves that case to the implementation). -/
def Float64.toInt (f : Float64) : Int :=
  let t : Nat := if 0 ≤ f.exp then f.mant * 2 ^ f.exp.toNat else f.mant / 2 ^ (-f.exp).toNat
  let v : Int := if f.neg then -(t : Int) else (t : Int)
  if -(2 ^ 63 : Int) ≤ v ∧ v < 2 ^ 63 then v else -(2 ^ 63 : Int)

/-! ## Go types and values -/

/-- The Go types that occur as decoding targets in the source. A struct is
the list of its fields: JSON name (from the tag) and type, in declaration
order. `map` is `map[string]elem`. -/
inductive GoType where
  | string
  | bool
  | int64
  | uint
  | float64
  | iface
  | slice (elem : GoType)
  | map (elem : GoType)
  | struct (fields : List (String × GoType))
  deriving Repr

/-- Go values of those types. `iface` is a non-nil `interface{}` holding the
given dynamic value. A slice is its backing store up to the last element ever
written and its length; a map is the list of its entries, keys distinct. -/
inductive GoVal where
  | string (s : Bytes)
  | bool (b : Bool)
  | int64 (i : Int)
  | uint (n : Nat)
  | float64 (f : Float64)
  | nilIface
  | iface (dyn : GoVal)
  | nilSlice
  | slice (backing : List GoVal) (len : Nat)
  | nilMap
  | map (entries : List (Bytes × GoVal))
  | struct (fields : List GoVal)
  deriving Repr

mutual
/-- The zero value of a type. -/
def zero : GoType → GoVal
  | .string => .string []
  | .bool => .bool false
  | .int64 => .int64 0
  | .uint => .uint 0
  | .float64 => .float64 ⟨false, 0, -1074⟩
  | .iface => .nilIface
  | .slice _ => .nilSlice
  | .map _ => .nilMap
  | .struct fs => .struct (zeroFields fs)
/-- The zero values of the fields of a struct. -/
def zeroFields : List (String × GoType) → List GoVal
  | [] => []
  | (_, t) :: fs => zero t :: zeroFields fs
end

/-- Field `i` of a struct value. -/
def GoVal.field (v : GoVal) (i : Nat) (dflt : GoVal) : GoVal :=
  match v with
  | .struct fs => fs.getD i dflt
  | _ => dflt

/-- Assignment to field `i` of a struct value. -/
def GoVal.setField (v : GoVal) (i : Nat) (w : GoVal) : GoVal :=
  match v with
  | .struct fs => .struct (fs.set i w)
  | other => other

/-- The backing store of a slice value. -/
def GoVal.backing : GoVal → List GoVal
  | .slice b _ => b
  | _ => []

/-- The elements of a slice value, as `range` visits them. -/
def GoVal.elems : GoVal → List GoVal
  | .slice b n => b.take n
  | _ => []

/-- The entries of a map value. -/
def GoVal.entries : GoVal → List (Bytes × GoVal)
  | .map es => es
  | _ => []

/-- Go `m[k] = v` on the entries of a map. -/
def mapInsert (k : Bytes) (v : GoVal) : List (Bytes × GoVal) → List (Bytes × GoVal)
  | [] => [(k, v)]
  | (k1, v1) :: es => if k1 = k then (k, v) :: es else (k1, v1) :: mapInsert k v es

/-- Lookup in the entries of a map. -/
def mapLookup (k : Bytes) : List (Bytes × GoVal) → Option GoVal
  | [] => none
  | (k1, v1) :: es => if k1 = k then some v1 else mapLookup k es

/-- Go `d[k]` for `d` of type `map[string]interface{}`: the nil interface
when the key is absent or the map is nil. -/
def GoVal.index (d : GoVal) (k : Bytes) : GoVal :=
  match d with
  | .map es => (mapLookup k es).getD .nilIface
  | _ => .nilIface

/-! ## The decoder of `encoding/json`

`Unmarshal` first checks the syntax of the whole input, then decodes. A value
that does not fit its target does not stop the decoder: the error is kept and
returned at the end. Both callers in the source drop the target whenever an
error is returned, so the model gives `none` as soon as an error arises. -/

mutual
/-- Decoding into an empty `interface{}` (`valueInterface`): `nil`, `bool`,
`float64`, `string`, `[]interface{}` or `map[string]interface{}`. A number
outside `float64` is an error. -/
def valueInterface : JSON → Option GoVal
  | .null => some .nilIface
  | .bool b => some (.iface (.bool b))
  | .num n => (parseFloat n).map (fun f => .iface (.float64 f))
  | .str s => some (.iface (.string s))
  | .arr xs => (arrayInterface xs).map (fun vs => .iface (.slice vs vs.length))
  | .obj ms => (objectInterface ms []).map (fun es => .iface (.map es))
/-- The elements of an array decoded into `[]interface{}`. -/
def arrayInterface : List JSON → Option (List GoVal)
  | [] => some []
  | x :: xs =>
    match valueInterface x with
    | none => none
    | some v => (arrayInterface xs).map (fun vs => v :: vs)
/-- The members of an object decoded into `map[string]interface{}`. -/
def objectInterface : List (Bytes × JSON) → List (Bytes × GoVal) → Option (List (Bytes × GoVal))
  | [], m => some m
  | (k, x) :: ms, m =>
    match valueInterface x with
    | none => none
    | some v => objectInterface ms (mapInsert k v m)
end

/-- Go `foldName` as far as it matters for the ASCII field names of the
source: ASCII letters are folded to upper case, the Kelvin sign U+212A folds
to `K` and the long s U+017F folds to `S`; no other character folds to an
ASCII one, and those are left as they are. -/
def foldName : Bytes → Bytes
  | [] => []
  | 0xE2 :: 0x84 :: 0xAA :: cs => 75 :: foldName cs
  | 0xC5 :: 0xBF :: cs => 83 :: foldName cs
  | c :: cs => (if 97 ≤ c.toNat ∧ c.toNat ≤ 122 then c - 32 else c) :: foldName cs

/-- The first field, from position `i` on, whose name satisfies `p`. -/
def firstField (p : Bytes → Bool) : List (String × GoType) → Nat → Option (Nat × GoType)
  | [], _ => none
  | (n, t) :: fs, i => if p (lit n) then some (i, t) else firstField p fs (i + 1)

/-- The field an object key is decoded into: the field with exactly that
name, otherwise the first field whose name matches when case is ignored. -/
def findField (fs : List (String × GoType)) (key : Bytes) : Option (Nat × GoType) :=
  match firstField (fun n => n = key) fs 0 with
  | some r => some r
  | none => firstField (fun n => foldName n = foldName key) fs 0

mutual
/-- The decoder (`decodeState.value`): `unmarshal t j v` decodes `j` into a
target of type `t` that currently holds `v`. -/
def unmarshal : GoType → JSON → GoVal → Option GoVal
  | .iface, j, _ => valueInterface j
  | .slice _, .null, _ => some .nilSlice
  | .map _, .null, _ => some .nilMap
  | _, .null, v => some v
  | .bool, .bool b, _ => some (.bool b)
  | .string, .str s, _ => some (.string s)
  | .int64, .num n, _ => (parseInt n).map GoVal.int64
  | .uint, .num n, _ => (parseUint n).map GoVal.uint
  | .float64, .num n, _ => (parseFloat n).map GoVal.float64
  | .slice _, .arr [], _ => some (.slice [] 0)
  | .slice t, .arr (x :: xs), v =>
    (decodeElems t (x :: xs) 0 v.backing).map (fun b => .slice b (xs.length + 1))
  | .map t, .obj ms, v => (decodeMap t ms v.entries).map GoVal.map
  | .struct fs, .obj ms, v => decodeStruct fs ms v
  | _, _, _ => none
/-- The elements of an array decoded into a slice: element `i` is decoded into
what the backing store holds at `i`, or into a zero value past its end. -/
def decodeElems : GoType → List JSON → Nat → List GoVal → Option (List GoVal)
  | _, [], _, b => some b
  | t, x :: xs, i, b =>
    match unmarshal t x (b.getD i (zero t)) with
    | none => none
    | some v => decodeElems t xs (i + 1) (if i < b.length then b.set i v else b ++ [v])
/-- The members of an object decoded into a map: every value is decoded into
a fresh zero element, which is then stored under the key. -/
def decodeMap : GoType → List (Bytes × JSON) → List (Bytes × GoVal) →
    Option (List (Bytes × GoVal))
  | _, [], m => some m
  | t, (k, x) :: ms, m =>
    match unmarshal t x (zero t) with
    | none => none
    | some v => decodeMap t ms (mapInsert k v m)
/-- The members of an object decoded into a struct: a member whose key names
no field is skipped, the others are decoded into what the field holds. -/
def decodeStruct : List (String × GoType) → List (Bytes × JSON) → GoVal → Option GoVal
  | _, [], v => some v
  | fs, (k, x) :: ms, v =>
    match findField fs k with
    | none => decodeStruct fs ms v
    | some (i, t) =>
      match unmarshal t x (v.field i (zero t)) with
      | none => none
      | some w => decodeStruct fs ms (v.setField i w)
end

/-- The errors the program can return. `errorf format` is the value of
`fmt.Errorf(format)`; `external` is an error produced by the HTTP
collaborator. -/
inductive Error where
  | syntaxError
  | unmarshalTypeError
  | errorf (format : Bytes)
  | external (code : Nat)
  deriving DecidableEq, Repr

/-- Go `json.Unmarshal(data, &v)` for a target of type `t` holding `v`. -/
def Unmarshal (t : GoType) (data : Bytes) (v : GoVal) : Except Error GoVal :=
  match parseJSON data with
  | none => .error .syntaxError
  | some j =>
    match unmarshal t j v with
    | none => .error .unmarshalTypeError
    | some w => .ok w

/-! ## The schemas of the source -/

/-- Go `struct { ID string; Name string }`, tags `id` and `name`. -/
def idName : GoType := .struct [("id", .string), ("name", .string)]

/-- The `Picture` field shared by `Me`, `Friends` and `Likes`. -/
def pictureData : GoType :=
  .struct [("data", .struct [("url", .string), ("is_silhoutte", .bool)])]

/-- The `Paging` field with `next` and `previous`. -/
def pagingNextPrevious : GoType := .struct [("next", .string), ("previous", .string)]

/-- The `From` field with `category`, `id` and `name`. -/
def fromCategory : GoType :=
  .struct [("category", .string), ("id", .string), ("name", .string)]

/-- The `Likes` field of a `Home`, `Photos` or `Videos` item. -/
def itemLikes : GoType :=
  .struct [("data", .slice idName),
    ("paging", .struct [("cursors", .struct [("after", .string), ("before", .string)])])]

/-- The `Images` field of a `Photos` or `Videos` item. -/
def itemImages : GoType :=
  .slice (.struct [("height", .uint), ("source", .string), ("width", .uint)])

/-- The `Tags` field of a `Photos` or `Videos` item. -/
def itemTags : GoType :=
  .struct [("data", .slice (.struct [("created_time", .string), ("id", .string),
      ("name", .string), ("x", .float64), ("y", .float64)])),
    ("paging", pagingNextPrevious)]

/-- Go type `Me`. -/
def Me : GoType :=
  .struct [("id", .string), ("email", .string), ("first_name", .string),
    ("last_name", .string), ("username", .string), ("birthday", .string),
    ("education", .slice (.struct [("school", idName), ("type", .string)])),
    ("gender", .string), ("hometown", idName), ("picture", pictureData),
    ("link", .string), ("locale", .string), ("location", idName), ("name", .string),
    ("timezone", .int64), ("updated_time", .string), ("verified", .bool),
    ("work", .slice (.struct [("employer", idName)]))]

/-- Go type `Friends`. -/
def Friends : GoType :=
  .map (.struct [("id", .string), ("bio", .string), ("first_name", .string),
    ("last_name", .string), ("username", .string), ("email", .string),
    ("gender", .string), ("picture", pictureData), ("link", .string),
    ("locale", .string), ("name", .string), ("birthday", .string),
    ("updated_time", .string), ("timezone", .int64)])

/-- Go type `Feed`. -/
def Feed : GoType :=
  .struct [("data", .slice (.struct [
      ("application", .struct [("id", .string), ("name", .string), ("namespace", .string)]),
      ("actions", .slice (.struct [("link", .string), ("name", .string)])),
      ("caption", .string), ("created_time", .string), ("description", .string),
      ("from", idName), ("icon", .string), ("id", .string),
      ("privacy", .struct [("deny", .string), ("value", .string), ("description", .string),
        ("allow", .string), ("friends", .string), ("network", .string)]),
      ("link", .string), ("story", .string),
      ("story_tags", .map (.slice (.struct [("id", .string), ("length", .int64),
        ("name", .string), ("offset", .int64), ("type", .string)]))),
      ("type", .string), ("updated_time", .string), ("status_type", .string),
      ("picture", .string)])),
    ("paging", pagingNextPrevious)]

/-- The fields of the `Cover` field of a `Likes` entry; `cover_id` is an
`interface{}` ("sometimes string sometimes int"). -/
def likesCoverFields : List (String × GoType) :=
  [("cover_id", .iface), ("offset_x", .int64), ("offset_y", .int64), ("source", .string)]

/-- The `Cover` field of a `Likes` entry. -/
def likesCover : GoType := .struct likesCoverFields

/-- The fields of a `Likes` entry. -/
def likesFields : List (String × GoType) :=
  [("about", .string), ("can_post", .bool), ("category", .string), ("checkins", .int64),
    ("cover", likesCover), ("picture", pictureData), ("id", .string),
    ("is_published", .bool), ("likes", .iface), ("link", .string), ("name", .string),
    ("talking_about_count", .int64), ("username", .string), ("website", .string),
    ("were_here_count", .int64), ("mission", .string), ("company_overview", .string),
    ("is_community_page", .bool), ("founded", .string), ("awards", .string),
    ("network", .string), ("plot_outline", .string), ("release_date", .string),
    ("description", .string), ("directed_by", .string), ("genre", .string),
    ("schedule", .string), ("season", .string), ("starring", .string),
    ("written_by", .string)]

/-- Go type `Likes`. -/
def Likes : GoType := .map (.struct likesFields)

/-- Go type `Home`. -/
def Home : GoType :=
  .struct [("data", .slice (.struct [
      ("actions", .slice (.struct [("link", .string), ("name", .string)])),
      ("application", .struct [("id", .string), ("name", .string), ("namespace", .string)]),
      ("caption", .string), ("created_time", .string), ("description", .string),
      ("from", fromCategory), ("icon", .string), ("id", .string), ("likes", itemLikes),
      ("link", .string), ("message", .string), ("name", .string), ("picture", .string),
      ("privacy", .struct [("value", .string)]), ("status_type", .string),
      ("type", .string), ("updated_time", .string)])),
    ("paging", pagingNextPrevious)]

/-- Go type `Photos`. -/
def Photos : GoType :=
  .struct [("data", .slice (.struct [
      ("created_time", .string), ("updated_time", .string), ("from", fromCategory),
      ("height", .uint), ("width", .uint), ("icon", .string), ("id", .string),
      ("images", itemImages), ("likes", itemLikes), ("link", .string),
      ("picture", .string), ("source", .string),
      ("place", .struct [("id", .string), ("name", .string),
        ("location", .struct [("city", .string), ("country", .string),
          ("latitude", .float64), ("longitude", .float64), ("state", .string),
          ("street", .string), ("zip", .string)])]),
      ("tags", itemTags)]))]

/-- Go type `Videos`. -/
def Videos : GoType :=
  .struct [("data", .slice (.struct [
      ("created_time", .string), ("updated_time", .string), ("from", fromCategory),
      ("id", .string), ("images", itemImages), ("likes", itemLikes),
      ("picture", .string), ("source", .string), ("tags", itemTags)]))]

/-- Go type `Profile`: a pointer field is `none` (nil) or the value it points
to. -/
structure Profile where
  ID : Bytes := []
  Token : Bytes := []
  Me : Option GoVal := none
  Feed : Option GoVal := none
  Friends : Option GoVal := none
  Likes : Option GoVal := none
  Home : Option GoVal := none
  Photos : Option GoVal := none
  Videos : Option GoVal := none

/-! ## `LoadData` -/

/-- Go `x.(float64)` in its two-result form. -/
def assertFloat64 : GoVal → Float64 × Bool
  | .iface (.float64 f) => (f, true)
  | _ => (⟨false, 0, -1074⟩, false)

/-- Go `x.(string)` in its two-result form. -/
def assertString : GoVal → Bytes × Bool
  | .iface (.string s) => (s, true)
  | _ => ([], false)

/-- Go `json.Unmarshal(data, &x)` for a freshly declared `var x T`. -/
def unmarshalNew (t : GoType) (data : Bytes) : Except Error GoVal :=
  Unmarshal t data (zero t)

/-- The body of the loop of `LoadData` for index `i` and element `d`. -/
def loadElem (i : Nat) (d : GoVal) (fbProfile : Profile) : Profile :=
  let code := assertFloat64 (d.index (lit "code"))
  if !code.2 || code.1.toInt != 200 then fbProfile
  else
    let body := assertString (d.index (lit "body"))
    if !body.2 then fbProfile
    else
      let data := body.1
      match i with
      | 0 =>
        match unmarshalNew Me data with
        | .error _ => fbProfile
        | .ok me => { fbProfile with Me := some me }
      | 3 =>
        match unmarshalNew Friends data with
        | .error _ => fbProfile
        | .ok friends => { fbProfile with Friends := some friends }
      | 4 =>
        match unmarshalNew Likes data with
        | .error _ => fbProfile
        | .ok likes => { fbProfile with Likes := some likes }
      | 5 =>
        match unmarshalNew Feed data with
        | .error _ => fbProfile
        | .ok feed => { fbProfile with Feed := some feed }
      | 6 =>
        match unmarshalNew Home data with
        | .error _ => fbProfile
        | .ok home => { fbProfile with Home := some home }
      | 7 =>
        match unmarshalNew Photos data with
        | .error _ => fbProfile
        | .ok photos => { fbProfile with Photos := some photos }
      | 8 =>
        match unmarshalNew Videos data with
        | .error _ => fbProfile
        | .ok videos => { fbProfile with Videos := some videos }
      | _ => fbProfile

/-- Go `for i, d := range payload`, from index `i` on. -/
def loadLoop : Nat → List GoVal → Profile → Profile
  | _, [], fbProfile => fbProfile
  | i, d :: rest, fbProfile => loadLoop (i + 1) rest (loadElem i d fbProfile)

/-- The type of `payload` in `LoadData`: `[]map[string]interface{}`. -/
def payloadType : GoType := .slice (.map .iface)

/-- Go `(*Facebook).LoadData`: `.error e` is `(nil, e)`, `.ok p` is
`(&p, nil)`. -/
def LoadData (jsonResp : Bytes) : Except Error Profile :=
  match Unmarshal payloadType jsonResp .nilSlice with
  | .error err => .error err
  | .ok payload => .ok (loadLoop 0 payload.elems {})

/-! ## The query catalog and `Request` -/

/-- The batch template registered under `full`. -/
def fullQuery : String :=
  "\n" ++
  "[\n" ++
  "  \x7b\"method\": \"GET\", \"relative_url\": \"me?fields=picture.type(large),id,birthday,email,gender,last_name,first_name,link,locale,location,name,timezone,username\"\x7d,\n" ++
  "  \x7b\"method\": \"GET\", \"relative_url\": \"me/likes?limit=10\", \"name\": \"get-likes\"\x7d,\n" ++
  "  \x7b\"method\": \"GET\", \"relative_url\": \"me/friends?limit=500\", \"name\": \"get-friends\"\x7d,\n" ++
  "  \x7b\"method\": \"GET\", \"relative_url\": \"?ids=\x7bresult=get-friends:$.data.*.id\x7d&fields=picture.type(large),id,birthday,email,gender,last_name,first_name,link,locale,location,name,timezone,username\"\x7d,\n" ++
  "  \x7b\"method\": \"GET\", \"relative_url\": \"?ids=\x7bresult=get-likes:$.data.*.id\x7d&fields=id,picture.type(large),category,link,name,username,website,location\"\x7d,\n" ++
  "  \x7b\"method\": \"GET\", \"relative_url\": \"me/feed?limit=10\"\x7d,\n" ++
  "  \x7b\"method\": \"GET\", \"relative_url\": \"me/home?limit=10\"\x7d,\n" ++
  "  \x7b\"method\": \"GET\", \"relative_url\": \"me/photos?limit=10\"\x7d,\n" ++
  "  \x7b\"method\": \"GET\", \"relative_url\": \"me/videos?limit=10\"\x7d\n" ++
  "]\n"

/-- The batch template registered under `lite`. -/
def liteQuery : String :=
  "\n" ++
  "[\n" ++
  "  \x7b\"method\": \"GET\", \"relative_url\": \"me?fields=picture.type(large),id,birthday,email,gender,last_name,first_name,link,locale,location,name,timezone,username\"\x7d,\n" ++
  "  \x7b\"method\": \"GET\", \"relative_url\": \"me/likes?limit=1\", \"name\": \"get-likes\"\x7d,\n" ++
  "  \x7b\"method\": \"GET\", \"relative_url\": \"me/friends?limit=200\", \"name\": \"get-friends\"\x7d,\n" ++
  "  \x7b\"method\": \"GET\", \"relative_url\": \"?ids=\x7bresult=get-friends:$.data.*.id\x7d&fields=picture.type(large),id,birthday,email,gender,last_name,first_name,link,locale,location,name,timezone,username\"\x7d,\n" ++
  "  \x7b\"method\": \"GET\", \"relative_url\": \"?ids=\x7bresult=get-likes:$.data.*.id\x7d&fields=id,picture.type(large),category,link,name,username,website,location\"\x7d,\n" ++
  "  \x7b\"method\": \"GET\", \"relative_url\": \"me/feed?limit=1\"\x7d,\n" ++
  "  \x7b\"method\": \"GET\", \"relative_url\": \"me/home?limit=1\"\x7d,\n" ++
  "  \x7b\"method\": \"GET\", \"relative_url\": \"me/photos?limit=1\"\x7d,\n" ++
  "  \x7b\"method\": \"GET\", \"relative_url\": \"me/videos?limit=1\"\x7d\n" ++
  "]\n"

/-- Go `requestTypes[queryType]` in its two-result form. -/
def requestTypes (queryType : Bytes) : Option Bytes :=
  if queryType = lit "full" then some (lit fullQuery)
  else if queryType = lit "lite" then some (lit liteQuery)
  else none

/-- Go `oauth.Config`, as filled by `NewConfig`. -/
structure Config where
  ClientId : Bytes
  ClientSecret : Bytes
  RedirectURL : Bytes
  AuthURL : Bytes
  TokenURL : Bytes
  Scope : Bytes

/-- Go `oauth.Transport`, with the access token of its `Token`. -/
structure Transport where
  Config : Config
  AccessToken : Bytes

/-- Go `url.Values`. -/
abbrev Values := List (Bytes × List Bytes)

/-- Go `Values.Set`. -/
def Values.set (key value : Bytes) : Values → Values
  | [] => [(key, [value])]
  | (k, vs) :: rest => if k = key then (key, [value]) :: rest else (k, vs) :: Values.set key value rest

/-- What the HTTP collaborator does with one `PostForm`: it fails, or it
answers and reading the body fails, or the body is read. -/
inductive PostResult where
  | postError (err : Error)
  | readError (err : Error)
  | body (b : Bytes)

/-- The HTTP collaborator: the answer to a `PostForm(url, values)`. -/
abbrev HTTPClient := Bytes → Values → PostResult

/-- One call of `PostForm`. -/
structure PostCall where
  url : Bytes
  values : Values
  deriving DecidableEq

/-- Go `facebookRequest`. The calls made to the collaborator are appended to
`calls`. -/
def facebookRequest (client : HTTPClient) (transport : Transport) (queryType : Bytes)
    (calls : List PostCall) : Except Error Bytes × List PostCall :=
  match requestTypes queryType with
  | none => (.error (.errorf (lit "facebook query definition not found: " ++ queryType)), calls)
  | some query =>
    let values := Values.set (lit "batch") query
      (Values.set (lit "access_token") transport.AccessToken [])
    let url := lit "https://graph.facebook.com"
    match client url values with
    | .postError err => (.error err, calls ++ [⟨url, values⟩])
    | .readError err => (.error err, calls ++ [⟨url, values⟩])
    | .body b => (.ok b, calls ++ [⟨url, values⟩])

/-- Go `Facebook`. -/
structure Facebook where
  Config : Config

/-- Go `(*Facebook).Request`. `facebookRequest` is a package variable of the
source, so the function it holds is an argument here; `calls` is the record
of the calls made to the HTTP collaborator so far. -/
def Request (fbRequest : Transport → Bytes → List PostCall → Except Error Bytes × List PostCall)
    (f : Facebook) (token queryType : Bytes) (calls : List PostCall) :
    Except Error Profile × List PostCall :=
  if token = [] then (.error (.errorf (lit "token is empty")), calls)
  else
    let transport : Transport := ⟨f.Config, token⟩
    match fbRequest transport queryType calls with
    | (.error err, calls1) => (.error err, calls1)
    | (.ok resp, calls1) =>
      match LoadData resp with
      | .error err => (.error err, calls1)
      | .ok profile => (.ok profile, calls1)

/-! ## Reading a result -/

/-- The result of `d["code"].(float64)` in the loop body. -/
def codeOf (d : GoVal) : Float64 × Bool := assertFloat64 (d.index (lit "code"))

/-- The result of `d["body"].(string)` in the loop body. -/
def bodyOf (d : GoVal) : Bytes × Bool := assertString (d.index (lit "body"))

/-- The position table of the `switch i` in `LoadData`: the schema decoded at
each position. -/
def schema : Nat → Option GoType
  | 0 => some Me
  | 3 => some Friends
  | 4 => some Likes
  | 5 => some Feed
  | 6 => some Home
  | 7 => some Photos
  | 8 => some Videos
  | _ => none

/-- The slot of the `Profile` that the `switch i` in `LoadData` assigns at
position `i`. -/
def slot (p : Profile) : Nat → Option GoVal
  | 0 => p.Me
  | 3 => p.Friends
  | 4 => p.Likes
  | 5 => p.Feed
  | 6 => p.Home
  | 7 => p.Photos
  | 8 => p.Videos
  | _ => none

/-- Assignment to the slot of position `i`. -/
def setSlot (p : Profile) (i : Nat) (v : GoVal) : Profile :=
  match i with
  | 0 => { p with Me := some v }
  | 3 => { p with Friends := some v }
  | 4 => { p with Likes := some v }
  | 5 => { p with Feed := some v }
  | 6 => { p with Home := some v }
  | 7 => { p with Photos := some v }
  | 8 => { p with Videos := some v }
  | _ => p

/-- What one element yields for a position of schema `t`: the value decoded
from its body when the code test passes, the body is a string and the body
decodes; nothing otherwise. -/
def decoded (t : GoType) (d : GoVal) : Option GoVal :=
  if (codeOf d).2 = true ∧ (codeOf d).1.toInt = 200 ∧ (bodyOf d).2 = true then
    match unmarshalNew t (bodyOf d).1 with
    | .error _ => none
    | .ok v => some v
  else none

/-- What the element at a position yields for the slot of that position. -/
def fromElem (j : Nat) (d : Option GoVal) : Option GoVal :=
  match schema j, d with
  | some t, some d => decoded t d
  | _, _ => none

/-- The binary64 value `200`. -/
def code200 : Float64 := ⟨false, 7036874417766400, -45⟩

/-- Whether a result is `(nil, err)`. -/
def isError {α : Type} : Except Error α → Bool
  | .error _ => true
  | .ok _ => false

/-! ## What the payload type admits -/

mutual
/-- Whether every number of a document is within `float64`. -/
def JSON.finite : JSON → Bool
  | .num n => (parseFloat n).isSome
  | .arr xs => finiteList xs
  | .obj ms => finiteMembers ms
  | _ => true
/-- `JSON.finite` for the elements of an array. -/
def finiteList : List JSON → Bool
  | [] => true
  | x :: xs => x.finite && finiteList xs
/-- `JSON.finite` for the members of an object. -/
def finiteMembers : List (Bytes × JSON) → Bool
  | [] => true
  | (_, x) :: ms => x.finite && finiteMembers ms
end

/-- An element that fits `map[string]interface{}`: `null`, or an object in
which every number, at any depth, is within `float64`. -/
def elemFits : JSON → Bool
  | .null => true
  | .obj ms => finiteMembers ms
  | _ => false

/-! ## Reading a `Likes` value -/

/-- The `Cover` struct with its `CoverID` set to nil. -/
def clearCover (cover : GoVal) : GoVal := cover.setField 0 .nilIface

/-- A `Likes` entry with the `CoverID` of its `Cover` set to nil. -/
def clearEntry (entry : GoVal) : GoVal :=
  entry.setField 4 (clearCover (entry.field 4 (zero likesCover)))

/-- A map entry with its `CoverID` set to nil when its key is `key`. -/
def clearAt (key : Bytes) (e : Bytes × GoVal) : Bytes × GoVal :=
  (e.1, if e.1 = key then clearEntry e.2 else e.2)

/-- A `Likes` value with the `CoverID` of the entry `key` set to nil: what is
left are all the other fields. -/
def clearCoverID (key : Bytes) (likes : GoVal) : GoVal :=
  match likes with
  | .map es => .map (es.map (clearAt key))
  | other => other

/-- The `CoverID` of the entry `key` of a `Likes` value. -/
def coverIDOf (key : Bytes) (likes : GoVal) : Option GoVal :=
  (mapLookup key likes.entries).map
    (fun entry => (entry.field 4 (zero likesCover)).field 0 .nilIface)

/-- A struct value with `n` fields. -/
def hasLen (n : Nat) (v : GoVal) : Prop := ∃ l, v = .struct l ∧ l.length = n

/-- Two `Likes` entries that agree outside the `CoverID` of their `Cover`. -/
def AgreeEntry (E E' : GoVal) : Prop :=
  (∀ c, E.setField 4 c = E'.setField 4 c) ∧
    clearCover (E.field 4 (zero likesCover)) = clearCover (E'.field 4 (zero likesCover))

/-- A `Likes` body in which one `cover_id` is singled out: the entry `key`,
in it the member `cover`, and in that the member `cover_id` with value `x`.
All the other members, before and after, are arbitrary. -/
def likesBody (pre : List (Bytes × JSON)) (key : Bytes) (f1 c1 : List (Bytes × JSON)) (x : JSON)
    (c2 f2 post : List (Bytes × JSON)) : JSON :=
  .obj (pre ++ (key, .obj (f1 ++ (lit "cover", .obj (c1 ++ (lit "cover_id", x) :: c2)) :: f2))
    :: post)

/-- What a JSON string, or a JSON number within `float64`, leaves in an
`interface{}`: the string, or the nearest `float64`. -/
def ifaceOf : JSON → Option GoVal
  | .str s => some (.iface (.string s))
  | .num n => (parseFloat n).map (fun f => .iface (.float64 f))
  | _ => none

/-- The value of a result, the nil interface when it is an error. -/
def okValue (r : Except Error GoVal) : GoVal :=
  match r with
  | .ok v => v
  | .error _ => .nilIface

/-- Whether `LoadData` returned a profile whose `Likes` slot is nil. -/
def likesSlotNil (r : Except Error Profile) : Bool :=
  match r with
  | .ok p => p.Likes.isNone
  | .error _ => false

/-! ## Comparing values -/

mutual
/-- Structural equality test on values. -/
def GoVal.beq : GoVal → GoVal → Bool
  | .string a, .string b => decide (a = b)
  | .bool a, .bool b => decide (a = b)
  | .int64 a, .int64 b => decide (a = b)
  | .uint a, .uint b => decide (a = b)
  | .float64 a, .float64 b => decide (a = b)
  | .nilIface, .nilIface => true
  | .iface a, .iface b => GoVal.beq a b
  | .nilSlice, .nilSlice => true
  | .slice a n, .slice b m => beqList a b && decide (n = m)
  | .nilMap, .nilMap => true
  | .map a, .map b => beqEntries a b
  | .struct a, .struct b => beqList a b
  | _, _ => false
/-- Structural equality test on lists of values. -/
def beqList : List GoVal → List GoVal → Bool
  | [], [] => true
  | a :: as, b :: bs => GoVal.beq a b && beqList as bs
  | _, _ => false
/-- Structural equality test on map entries. -/
def beqEntries : List (Bytes × GoVal) → List (Bytes × GoVal) → Bool
  | [], [] => true
  | (k, a) :: as, (l, b) :: bs => decide (k = l) && GoVal.beq a b && beqEntries as bs
  | _, _ => false
end

/-- Whether a result is the given value without an error. -/
def okIs (r : Except Error GoVal) (v : GoVal) : Bool :=
  match r with
  | .ok w => GoVal.beq w v
  | .error _ => false

/-! ## Sample inputs -/

/-- A `Facebook` with an empty configuration. -/
def sampleFacebook : Facebook := ⟨⟨[], [], [], [], [], []⟩⟩

/-- A batch response of four elements, the friends position succeeding. -/
def batchFriendsOk : Bytes :=
  lit "[null,null,null,\x7b\"code\":200,\"body\":\"\x7b\x7d\"\x7d]"

/-- The same batch response with code 400 at the friends position. -/
def batchFriends400 : Bytes := lit "[null,null,null,\x7b\"code\":400\x7d]"

/-- A payload element with code 200 and the body `{}`. -/
def okElem : GoVal :=
  .map [(lit "code", .iface (.float64 code200)), (lit "body", .iface (.string (lit "\x7b\x7d")))]

/-- The text of `okElem`. -/
def okElemText : String := "\x7b\"code\":200,\"body\":\"\x7b\x7d\"\x7d"

/-- A batch response of nine elements, each with code 200 and the body `{}`. -/
def batchNine : Bytes :=
  lit ("[" ++ okElemText ++ "," ++ okElemText ++ "," ++ okElemText ++ "," ++ okElemText ++ "," ++
    okElemText ++ "," ++ okElemText ++ "," ++ okElemText ++ "," ++ okElemText ++ "," ++
    okElemText ++ "]")

/-- A batch response whose only element has code 200 and a body that is not
JSON. -/
def batchBadBody : Bytes := lit "[\x7b\"code\":200,\"body\":\"oops\"\x7d]"

/-- A payload element with code 200 and the body `oops`. -/
def badBodyElem : GoVal :=
  .map [(lit "code", .iface (.float64 code200)), (lit "body", .iface (.string (lit "oops")))]

/-- A batch response whose only element has the code 200.5 and the body
`{}`. -/
def batchCodeFraction : Bytes := lit "[\x7b\"code\":200.5,\"body\":\"\x7b\x7d\"\x7d]"

/-- A batch response with malformed entries: wrongly typed fields, a `null`
and an empty object. -/
def batchOddEntries : Bytes :=
  lit "[\x7b\"code\":\"x\",\"body\":7\x7d,null,\x7b\x7d]"

/-- A `Likes` body whose only entry has the string `a` as `cover_id`. -/
def likesBodyString : Bytes :=
  lit "\x7b\"1\":\x7b\"cover\":\x7b\"cover_id\":\"a\"\x7d\x7d\x7d"

/-- The same body with the number 12 as `cover_id`. -/
def likesBodyNumber : Bytes :=
  lit "\x7b\"1\":\x7b\"cover\":\x7b\"cover_id\":12\x7d\x7d\x7d"

/-- The same body with the number `1e999` as `cover_id`. -/
def likesBodyHuge : Bytes :=
  lit "\x7b\"1\":\x7b\"cover\":\x7b\"cover_id\":1e999\x7d\x7d\x7d"

/-- A batch response with code 200 and `likesBodyHuge` as body at the likes
position. -/
def batchLikesHuge : Bytes :=
  lit ("[null,null,null,null,\x7b\"code\":200,\"body\":\"" ++
    "\x7b\\\"1\\\":\x7b\\\"cover\\\":\x7b\\\"cover_id\\\":1e999\x7d\x7d\x7d" ++ "\"\x7d]")

/-- An HTTP collaborator that answers every call with the empty batch `[]`. -/
def emptyBatchClient : HTTPClient := fun _ _ => .body (lit "[]")

/-! ## Soundness of the equality test -/

mutual
/-- The equality test on values is sound. -/
theorem GoVal.eq_of_beq : ∀ (a b : GoVal), GoVal.beq a b = true → a = b
  | .string a, b, h => by cases b <;> simp_all [GoVal.beq]
  | .bool a, b, h => by cases b <;> simp_all [GoVal.beq]
  | .int64 a, b, h => by cases b <;> simp_all [GoVal.beq]
  | .uint a, b, h => by cases b <;> simp_all [GoVal.beq]
  | .float64 a, b, h => by cases b <;> simp_all [GoVal.beq]
  | .nilIface, b, h => by cases b <;> simp_all [GoVal.beq]
  | .nilSlice, b, h => by cases b <;> simp_all [GoVal.beq]
  | .nilMap, b, h => by cases b <;> simp_all [GoVal.beq]
  | .iface a, b, h => by
    cases b with
    | iface b => rw [GoVal.eq_of_beq a b (by simpa [GoVal.beq] using h)]
    | _ => simp [GoVal.beq] at h
  | .slice a n, b, h => by
    cases b with
    | slice b m =>
      simp only [GoVal.beq, Bool.and_eq_true, decide_eq_true_eq] at h
      rw [eq_of_beqList a b h.1, h.2]
    | _ => simp [GoVal.beq] at h
  | .map a, b, h => by
    cases b with
    | map b => rw [eq_of_beqEntries a b (by simpa [GoVal.beq] using h)]
    | _ => simp [GoVal.beq] at h
  | .struct a, b, h => by
    cases b with
    | struct b => rw [eq_of_beqList a b (by simpa [GoVal.beq] using h)]
    | _ => simp [GoVal.beq] at h
/-- The equality test on lists of values is sound. -/
theorem eq_of_beqList : ∀ (a b : List GoVal), beqList a b = true → a = b
  | [], b, h => by cases b <;> simp_all [beqList]
  | x :: xs, b, h => by
    cases b with
    | nil => simp [beqList] at h
    | cons y ys =>
      simp only [beqList, Bool.and_eq_true] at h
      rw [GoVal.eq_of_beq x y h.1, eq_of_beqList xs ys h.2]
/-- The equality test on map entries is sound. -/
theorem eq_of_beqEntries : ∀ (a b : List (Bytes × GoVal)), beqEntries a b = true → a = b
  | [], b, h => by cases b <;> simp_all [beqEntries]
  | (k, x) :: xs, b, h => by
    cases b with
    | nil => simp [beqEntries] at h
    | cons y ys =>
      obtain ⟨l, y⟩ := y
      simp only [beqEntries, Bool.and_eq_true, decide_eq_true_eq] at h
      rw [h.1.1, GoVal.eq_of_beq x y h.1.2, eq_of_beqEntries xs ys h.2]
end

/-- The JSON number `200` is read as the binary64 value `code200`. -/
theorem parseFloat_200 : parseFloat ⟨false, 200, 0, 0, none⟩ = some code200 := by
  decide!

/-- A result that passes `okIs` is that value. -/
theorem eq_ok_of_okIs (r : Except Error GoVal) (v : GoVal) (h : okIs r v = true) :
    r = .ok v := by
  cases r with
  | error e => simp [okIs] at h
  | ok w => rw [GoVal.eq_of_beq w v (by simpa [okIs] using h)]

/-! ## The loop of `LoadData` -/

/-- The loop body leaves the profile alone or assigns the slot of its
position with the value decoded from the element. -/
theorem loadElem_eq (i : Nat) (d : GoVal) (p : Profile) :
    loadElem i d p =
      match schema i with
      | none => p
      | some t =>
        match decoded t d with
        | none => p
        | some v => setSlot p i v := by
  unfold loadElem decoded codeOf bodyOf
  by_cases h1 : (assertFloat64 (d.index (lit "code"))).2 = true
  · by_cases h2 : (assertFloat64 (d.index (lit "code"))).1.toInt = 200
    · by_cases h3 : (assertString (d.index (lit "body"))).2 = true
      · simp only [h1, h2, h3]
        match i with
        | 0 => simp [schema, setSlot]; split <;> simp_all
        | 1 => simp [schema]
        | 2 => simp [schema]
        | 3 => simp [schema, setSlot]; split <;> simp_all
        | 4 => simp [schema, setSlot]; split <;> simp_all
        | 5 => simp [schema, setSlot]; split <;> simp_all
        | 6 => simp [schema, setSlot]; split <;> simp_all
        | 7 => simp [schema, setSlot]; split <;> simp_all
        | 8 => simp [schema, setSlot]; split <;> simp_all
        | n + 9 => simp [schema]
      · simp [h1, h2, h3]; cases schema i <;> simp
    · simp [h1, h2]; cases schema i <;> simp
  · simp [h1]; cases schema i <;> simp

/-- A position without a schema has no slot. -/
theorem slot_of_schema_none (p : Profile) (j : Nat) (h : schema j = none) : slot p j = none := by
  unfold schema at h
  unfold slot
  split <;> simp_all

/-- Reading a slot after an assignment. -/
theorem slot_setSlot (p : Profile) (i j : Nat) (v : GoVal) (t : GoType)
    (hi : schema i = some t) :
    slot (setSlot p i v) j = if j = i then some v else slot p j := by
  by_cases hji : j = i
  · subst hji
    simp only [if_true]
    unfold schema at hi
    split at hi <;> first | rfl | simp at hi
  · simp only [hji, if_false]
    unfold schema at hi
    split at hi
    all_goals first
      | (simp at hi; done)
      | (unfold slot setSlot
         split <;> first | rfl | omega)

/-- An assignment to a slot leaves `Token` and `ID` alone. -/
theorem setSlot_token (p : Profile) (i : Nat) (v : GoVal) :
    (setSlot p i v).Token = p.Token ∧ (setSlot p i v).ID = p.ID := by
  unfold setSlot
  split <;> exact ⟨rfl, rfl⟩

/-- The loop body leaves `Token` and `ID` alone. -/
theorem loadElem_token (i : Nat) (d : GoVal) (p : Profile) :
    (loadElem i d p).Token = p.Token ∧ (loadElem i d p).ID = p.ID := by
  rw [loadElem_eq]
  cases hs : schema i with
  | none => exact ⟨rfl, rfl⟩
  | some t =>
    cases hd : decoded t d with
    | none => simp [hd]
    | some v => simp only [hd]; exact setSlot_token p i v

/-- The loop leaves `Token` and `ID` alone. -/
theorem loadLoop_token (ds : List GoVal) (i : Nat) (p : Profile) :
    (loadLoop i ds p).Token = p.Token ∧ (loadLoop i ds p).ID = p.ID := by
  induction ds generalizing i p with
  | nil => exact ⟨rfl, rfl⟩
  | cons d rest ih =>
    have h1 := ih (i + 1) (loadElem i d p)
    have h2 := loadElem_token i d p
    simp only [loadLoop]
    exact ⟨h1.1.trans h2.1, h1.2.trans h2.2⟩

/-- A slot after the loop body. -/
theorem slot_loadElem (i j : Nat) (d : GoVal) (p : Profile) :
    slot (loadElem i d p) j =
      if j = i then (fromElem i (some d)).or (slot p i) else slot p j := by
  rw [loadElem_eq]
  unfold fromElem
  cases hs : schema i with
  | none =>
    by_cases hji : j = i
    · subst hji; simp [slot_of_schema_none p j hs]
    · simp [hji]
  | some t =>
    cases hd : decoded t d with
    | none => by_cases hji : j = i <;> simp [hji, hd]
    | some v =>
      simp only [hd, slot_setSlot p i j v t hs]
      by_cases hji : j = i <;> simp [hji]

/-- A slot after the loop: the element at the position of the slot decides
it, the other elements have no part in it. -/
theorem slot_loadLoop (ds : List GoVal) (i j : Nat) (p : Profile) :
    slot (loadLoop i ds p) j =
      (fromElem j (if i ≤ j then ds[j - i]? else none)).or (slot p j) := by
  induction ds generalizing i p with
  | nil => simp [loadLoop, fromElem]
  | cons d rest ih =>
    simp only [loadLoop]
    rw [ih (i + 1) (loadElem i d p), slot_loadElem]
    by_cases hji : j = i
    · subst hji
      simp [fromElem]
    · by_cases hlt : i ≤ j
      · have h1 : i + 1 ≤ j := by omega
        have h2 : j - i = (j - (i + 1)) + 1 := by omega
        simp only [hji, hlt, h1, if_true, if_false]
        rw [h2]
        simp
      · have h1 : ¬ (i + 1 ≤ j) := by omega
        simp [hji, hlt, h1]

/-- The empty profile has no slot set. -/
theorem slot_empty (j : Nat) : slot ({} : Profile) j = none := by
  unfold slot
  split <;> rfl

/-- `LoadData` on a payload that parses: no error, and every slot is what the
element at its position yields. -/
theorem LoadData_of_payload (data : Bytes) (payload : GoVal)
    (h : Unmarshal payloadType data .nilSlice = .ok payload) :
    ∃ p, LoadData data = .ok p ∧ p.Token = [] ∧ p.ID = [] ∧
      ∀ j, slot p j = fromElem j payload.elems[j]? := by
  refine ⟨loadLoop 0 payload.elems {}, ?_, ?_, ?_, ?_⟩
  · simp [LoadData, h]
  · exact (loadLoop_token payload.elems 0 {}).1
  · exact (loadLoop_token payload.elems 0 {}).2
  · intro j
    rw [slot_loadLoop]
    simp [slot_empty]

/-- `LoadData` returns an error exactly when the outer `Unmarshal` does. -/
theorem LoadData_error_iff (data : Bytes) :
    isError (LoadData data) = isError (Unmarshal payloadType data .nilSlice) := by
  unfold LoadData
  cases Unmarshal payloadType data .nilSlice <;> rfl

/-- On success `LoadData` returns a profile with empty `Token` and `ID`. -/
theorem LoadData_token (data : Bytes) (p : Profile) (h : LoadData data = .ok p) :
    p.Token = [] ∧ p.ID = [] := by
  unfold LoadData at h
  cases hu : Unmarshal payloadType data .nilSlice with
  | error e => simp [hu] at h
  | ok payload =>
    simp only [hu, Except.ok.injEq] at h
    subst h
    exact loadLoop_token payload.elems 0 {}

/-- An element whose code test fails yields nothing. -/
theorem decoded_of_code (t : GoType) (d : GoVal)
    (h : (codeOf d).2 = false ∨ (codeOf d).1.toInt ≠ 200) : decoded t d = none := by
  unfold decoded
  rcases h with h | h
  · simp [h]
  · simp [h]

/-- An element whose body is no string, or does not decode, yields nothing. -/
theorem decoded_of_body (t : GoType) (d : GoVal)
    (h : (bodyOf d).2 = false ∨ isError (unmarshalNew t (bodyOf d).1) = true) :
    decoded t d = none := by
  unfold decoded
  rcases h with h | h
  · simp [h]
  · split
    · cases hu : unmarshalNew t (bodyOf d).1 with
      | error e => rfl
      | ok v => simp [hu, isError] at h
    · rfl

/-- An element with code 200 and a string body that decodes yields the decoded
value. -/
theorem decoded_of_ok (t : GoType) (d v : GoVal)
    (hc : (codeOf d).2 = true ∧ (codeOf d).1.toInt = 200) (hb : (bodyOf d).2 = true)
    (hv : unmarshalNew t (bodyOf d).1 = .ok v) : decoded t d = some v := by
  unfold decoded
  simp [hc.1, hc.2, hb, hv]

/-! ## The outer `Unmarshal` -/

mutual
/-- Decoding into `interface{}` succeeds exactly on documents whose numbers
are within `float64`. -/
theorem valueInterface_isSome : ∀ (j : JSON), (valueInterface j).isSome = j.finite
  | .null => rfl
  | .bool _ => rfl
  | .num n => by simp [valueInterface, JSON.finite]
  | .str _ => rfl
  | .arr xs => by simp [valueInterface, JSON.finite, arrayInterface_isSome xs]
  | .obj ms => by simp [valueInterface, JSON.finite, objectInterface_isSome ms []]
/-- The same for the elements of an array. -/
theorem arrayInterface_isSome : ∀ (xs : List JSON), (arrayInterface xs).isSome = finiteList xs
  | [] => rfl
  | x :: xs => by
    have h1 := valueInterface_isSome x
    have h2 := arrayInterface_isSome xs
    cases hv : valueInterface x with
    | none => simp [arrayInterface, finiteList, hv, ← h1]
    | some v => simp [arrayInterface, finiteList, hv, ← h1, h2]
/-- The same for the members of an object. -/
theorem objectInterface_isSome : ∀ (ms : List (Bytes × JSON)) (m : List (Bytes × GoVal)),
    (objectInterface ms m).isSome = finiteMembers ms
  | [], _ => rfl
  | (k, x) :: ms, m => by
    have h1 := valueInterface_isSome x
    cases hv : valueInterface x with
    | none => simp [objectInterface, finiteMembers, hv, ← h1]
    | some v => simp [objectInterface, finiteMembers, hv, ← h1, objectInterface_isSome ms _]
end

/-- Decoding the members of an object into `map[string]interface{}`. -/
theorem decodeMap_iface_isSome (ms : List (Bytes × JSON)) (m : List (Bytes × GoVal)) :
    (decodeMap .iface ms m).isSome = finiteMembers ms := by
  induction ms generalizing m with
  | nil => rfl
  | cons kx ms ih =>
    obtain ⟨k, x⟩ := kx
    have h1 := valueInterface_isSome x
    cases hv : valueInterface x with
    | none => simp [decodeMap, unmarshal, finiteMembers, hv, ← h1]
    | some v => simp [decodeMap, unmarshal, finiteMembers, hv, ← h1, ih]

/-- An element decodes into `map[string]interface{}` exactly when it fits. -/
theorem unmarshal_elem_isSome (x : JSON) (v : GoVal) :
    (unmarshal (.map .iface) x v).isSome = elemFits x := by
  cases x with
  | obj ms => simp [unmarshal, elemFits, decodeMap_iface_isSome]
  | _ => simp [unmarshal, elemFits]

/-- The elements of the payload decode exactly when each of them fits. -/
theorem decodeElems_payload_isSome (xs : List JSON) (i : Nat) (b : List GoVal) :
    (decodeElems (.map .iface) xs i b).isSome = xs.all elemFits := by
  induction xs generalizing i b with
  | nil => rfl
  | cons x xs ih =>
    have h1 := unmarshal_elem_isSome x (b.getD i (zero (.map .iface)))
    cases hv : unmarshal (.map .iface) x (b.getD i (zero (.map .iface))) with
    | none =>
      rw [hv] at h1
      simp only [decodeElems, hv, List.all_cons, ← h1]
      rfl
    | some v =>
      rw [hv] at h1
      simp only [decodeElems, hv, List.all_cons, ← h1, ih]
      rfl

/-- An array decodes into the payload exactly when each element fits. -/
theorem unmarshal_payload_arr (xs : List JSON) :
    (unmarshal payloadType (.arr xs) .nilSlice).isSome = xs.all elemFits := by
  cases xs with
  | nil => simp [unmarshal, payloadType]
  | cons x xs =>
    simp only [unmarshal, payloadType, Option.isSome_map']
    exact decodeElems_payload_isSome (x :: xs) 0 _

/-! ## Decoding a `Likes` body -/

/-- Reading a field after an assignment to another field. -/
theorem field_setField_ne (v : GoVal) (i j : Nat) (a d : GoVal) (h : i ≠ j) :
    (v.setField i a).field j d = v.field j d := by
  cases v <;> simp [GoVal.setField, GoVal.field, List.getD, List.getElem?_set_ne h]

/-- A second assignment to a field replaces the first. -/
theorem setField_setField (v : GoVal) (i : Nat) (a b : GoVal) :
    (v.setField i a).setField i b = v.setField i b := by
  cases v <;> simp [GoVal.setField]

/-- Assignments to different fields commute. -/
theorem setField_comm (v : GoVal) (i j : Nat) (a b : GoVal) (h : i ≠ j) :
    (v.setField i a).setField j b = (v.setField j b).setField i a := by
  cases v <;> simp [GoVal.setField, List.set_comm a b _ h]

/-- Reading a field after an assignment to it gives the assigned value, or the default when the value has no such field. -/
theorem field_setField_self_or (v : GoVal) (i : Nat) (a d : GoVal) :
    (v.setField i a).field i d = a ∨ (v.setField i a).field i d = d := by
  cases v with
  | struct l =>
    by_cases h : i < l.length
    · left; simp [GoVal.setField, GoVal.field, List.getD, List.getElem?_set_self h]
    · right
      have h' : l.length ≤ i := by omega
      simp [GoVal.setField, GoVal.field, List.getD, List.getElem?_eq_none, h']
  | _ => right; rfl

/-- `unmarshal` into an `interface{}` ignores what the target holds. -/
theorem unmarshal_iface (x : JSON) (v : GoVal) : unmarshal .iface x v = valueInterface x := by
  cases x <;> simp [unmarshal]

/-- What `firstField` finds is a field at the reported index that satisfies the test. -/
theorem firstField_spec (p : Bytes → Bool) (fs : List (String × GoType)) (n i : Nat) (t : GoType)
    (h : firstField p fs n = some (i, t)) :
    ∃ name, n ≤ i ∧ fs[i - n]? = some (name, t) ∧ p (lit name) = true := by
  induction fs generalizing n with
  | nil => simp [firstField] at h
  | cons f fs ih =>
    obtain ⟨name, ty⟩ := f
    unfold firstField at h
    by_cases hp : p (lit name) = true
    · simp only [hp, if_true, Option.some.injEq, Prod.mk.injEq] at h
      obtain ⟨h1, h2⟩ := h
      subst h1; subst h2
      exact ⟨name, le_refl _, by simp, hp⟩
    · simp only [hp] at h
      obtain ⟨nm, h1, h2, h3⟩ := ih (n + 1) h
      refine ⟨nm, by omega, ?_, h3⟩
      have : i - n = (i - (n + 1)) + 1 := by omega
      rw [this]
      simpa using h2

/-- The field found for a key has a name equal to the key when case is ignored. -/
theorem findField_spec (fs : List (String × GoType)) (key : Bytes) (i : Nat) (t : GoType)
    (h : findField fs key = some (i, t)) :
    ∃ name, fs[i]? = some (name, t) ∧ foldName (lit name) = foldName key := by
  unfold findField at h
  cases h1 : firstField (fun n => decide (n = key)) fs 0 with
  | some r =>
    simp only [h1, Option.some.injEq] at h
    subst h
    obtain ⟨name, _, h2, h3⟩ := firstField_spec _ fs 0 i t h1
    refine ⟨name, by simpa using h2, ?_⟩
    simp only [decide_eq_true_eq] at h3
    rw [h3]
  | none =>
    simp only [h1] at h
    obtain ⟨name, _, h2, h3⟩ := firstField_spec _ fs 0 i t h
    refine ⟨name, by simpa using h2, ?_⟩
    simpa using h3

/-- Decoding the members of an object into a struct, one run after the other. -/
theorem decodeStruct_append (fs : List (String × GoType)) (a b : List (Bytes × JSON)) (v : GoVal) :
    decodeStruct fs (a ++ b) v = (decodeStruct fs a v).bind (fun w => decodeStruct fs b w) := by
  induction a generalizing v with
  | nil => simp [decodeStruct]
  | cons kx a ih =>
    obtain ⟨k, x⟩ := kx
    simp only [List.cons_append, decodeStruct]
    cases findField fs k with
    | none => exact ih v
    | some it =>
      obtain ⟨i, t⟩ := it
      simp only
      cases unmarshal t x (v.field i (zero t)) with
      | none => rfl
      | some w => exact ih _

/-- Decoding the members of an object into a map, one run after the other. -/
theorem decodeMap_append (t : GoType) (a b : List (Bytes × JSON)) (m : List (Bytes × GoVal)) :
    decodeMap t (a ++ b) m = (decodeMap t a m).bind (fun m1 => decodeMap t b m1) := by
  induction a generalizing m with
  | nil => simp [decodeMap]
  | cons kx a ih =>
    obtain ⟨k, x⟩ := kx
    simp only [List.cons_append, decodeMap]
    cases unmarshal t x (zero t) with
    | none => rfl
    | some w => exact ih _

/-- Two struct values that agree outside a field of type `interface{}` are
decoded alike, and the results agree outside that field. -/
theorem decodeStruct_agree (fs : List (String × GoType)) (i0 : Nat)
    (hiface : ∀ key t, findField fs key = some (i0, t) → t = .iface)
    (ms : List (Bytes × JSON)) (A A' B : GoVal)
    (hA : A.setField i0 .nilIface = A'.setField i0 .nilIface)
    (h : decodeStruct fs ms A = some B) :
    ∃ B', decodeStruct fs ms A' = some B' ∧
      B.setField i0 .nilIface = B'.setField i0 .nilIface := by
  induction ms generalizing A A' with
  | nil =>
    simp only [decodeStruct, Option.some.injEq] at h
    subst h
    exact ⟨A', rfl, hA⟩
  | cons kx ms ih =>
    obtain ⟨k, x⟩ := kx
    simp only [decodeStruct] at h ⊢
    cases hf : findField fs k with
    | none =>
      simp only [hf] at h ⊢
      exact ih A A' hA h
    | some it =>
      obtain ⟨i, t⟩ := it
      simp only [hf] at h ⊢
      by_cases hi : i = i0
      · subst hi
        have ht := hiface k t hf
        subst ht
        rw [unmarshal_iface] at h ⊢
        cases hv : valueInterface x with
        | none => simp [hv] at h
        | some w =>
          simp only [hv] at h ⊢
          refine ih _ _ ?_ h
          rw [setField_setField, setField_setField, hA]
      · have hfield : A.field i (zero t) = A'.field i (zero t) := by
          rw [← field_setField_ne A i0 i .nilIface (zero t) (Ne.symm hi), hA,
            field_setField_ne A' i0 i .nilIface (zero t) (Ne.symm hi)]
        rw [← hfield]
        cases hv : unmarshal t x (A.field i (zero t)) with
        | none => simp [hv] at h
        | some w =>
          simp only [hv] at h ⊢
          refine ih _ _ ?_ h
          rw [setField_comm A i i0 w .nilIface hi, setField_comm A' i i0 w .nilIface hi, hA]

/-- In the `Cover` struct only `cover_id`, an `interface{}`, sits at index 0. -/
theorem likesCover_index0 (key : Bytes) (t : GoType)
    (h : findField likesCoverFields key = some (0, t)) :
    t = .iface ∧ foldName (lit "cover_id") = foldName key := by
  obtain ⟨name, h1, h2⟩ := findField_spec _ _ _ _ h
  simp only [likesCoverFields, List.getElem?_cons_zero, Option.some.injEq, Prod.mk.injEq] at h1
  obtain ⟨h3, h4⟩ := h1
  subst h3
  exact ⟨h4.symm, h2⟩

/-- In a `Likes` entry only `cover` sits at index 4. -/
theorem likesFields_index4 (key : Bytes) (t : GoType)
    (h : findField likesFields key = some (4, t)) :
    t = likesCover ∧ foldName (lit "cover") = foldName key := by
  obtain ⟨name, h1, h2⟩ := findField_spec _ _ _ _ h
  have h5 : likesFields[4]? = some ("cover", likesCover) := rfl
  rw [h5] at h1
  simp only [Option.some.injEq, Prod.mk.injEq] at h1
  obtain ⟨h3, h4⟩ := h1
  subst h3
  exact ⟨h4.symm, h2⟩

/-- Decoding into the `Cover` struct respects agreement outside `cover_id`. -/
theorem unmarshal_cover_agree (x : JSON) (A A' B : GoVal)
    (hA : A.setField 0 .nilIface = A'.setField 0 .nilIface)
    (h : unmarshal likesCover x A = some B) :
    ∃ B', unmarshal likesCover x A' = some B' ∧
      B.setField 0 .nilIface = B'.setField 0 .nilIface := by
  cases x with
  | null =>
    simp only [unmarshal, likesCover, Option.some.injEq] at h ⊢
    subst h
    exact ⟨A', rfl, hA⟩
  | obj ms =>
    simp only [unmarshal, likesCover] at h ⊢
    exact decodeStruct_agree likesCoverFields 0 (fun key t hf => (likesCover_index0 key t hf).1)
      ms A A' B hA h
  | _ => simp [unmarshal, likesCover] at h

/-- Agreement of the `Cover` structs after both are assigned to field 4. -/
theorem agree_after_set (E E' B B' : GoVal) (h : ∀ c, E.setField 4 c = E'.setField 4 c)
    (hB : clearCover B = clearCover B') :
    clearCover ((E.setField 4 B).field 4 (zero likesCover))
      = clearCover ((E'.setField 4 B').field 4 (zero likesCover)) := by
  have h0 := h .nilIface
  cases E with
  | struct l =>
    cases E' with
    | struct l' =>
      simp only [GoVal.setField, GoVal.struct.injEq] at h0
      have hlen : l.length = l'.length := by
        have := congrArg List.length h0
        simpa using this
      by_cases h4 : 4 < l.length
      · have h4' : 4 < l'.length := by omega
        simp [GoVal.setField, GoVal.field, List.getD, List.getElem?_set_self h4,
          List.getElem?_set_self h4', hB]
      · have h5 : l.length ≤ 4 := by omega
        have h5' : l'.length ≤ 4 := by omega
        simp [GoVal.setField, GoVal.field, List.getD, List.getElem?_eq_none, h5, h5']
    | _ => simp [GoVal.setField] at h0
  | _ =>
    cases E' with
    | struct l' => simp [GoVal.setField] at h0
    | _ => simp [GoVal.setField, GoVal.field]

/-- Entries that agree outside `CoverID` are equal once `CoverID` is cleared. -/
theorem agreeEntry_clear (E E' : GoVal) (h : AgreeEntry E E') : clearEntry E = clearEntry E' := by
  unfold clearEntry
  rw [h.1, h.2]

/-- Decoding the members of a `Likes` entry respects agreement outside
`CoverID`. -/
theorem decodeStruct_agreeEntry (ms : List (Bytes × JSON)) (E E' F : GoVal)
    (hE : AgreeEntry E E') (h : decodeStruct likesFields ms E = some F) :
    ∃ F', decodeStruct likesFields ms E' = some F' ∧ AgreeEntry F F' := by
  induction ms generalizing E E' with
  | nil =>
    simp only [decodeStruct, Option.some.injEq] at h
    subst h
    exact ⟨E', rfl, hE⟩
  | cons kx ms ih =>
    obtain ⟨k, x⟩ := kx
    simp only [decodeStruct] at h ⊢
    cases hf : findField likesFields k with
    | none =>
      simp only [hf] at h ⊢
      exact ih E E' hE h
    | some it =>
      obtain ⟨i, t⟩ := it
      simp only [hf] at h ⊢
      by_cases hi : i = 4
      · subst hi
        have ht := (likesFields_index4 k t hf).1
        subst ht
        cases hv : unmarshal likesCover x (E.field 4 (zero likesCover)) with
        | none => simp [hv] at h
        | some B =>
          obtain ⟨B', hB', hBB⟩ := unmarshal_cover_agree x _ _ B hE.2 hv
          simp only [hv] at h
          simp only [hB']
          refine ih _ _ ⟨?_, ?_⟩ h
          · intro c
            rw [setField_setField, setField_setField, hE.1]
          · exact agree_after_set E E' B B' hE.1 hBB
      · have hfield : E.field i (zero t) = E'.field i (zero t) := by
          rw [← field_setField_ne E 4 i .nilIface (zero t) (Ne.symm hi), hE.1,
            field_setField_ne E' 4 i .nilIface (zero t) (Ne.symm hi)]
        rw [← hfield]
        cases hv : unmarshal t x (E.field i (zero t)) with
        | none => simp [hv] at h
        | some w =>
          simp only [hv] at h ⊢
          refine ih _ _ ⟨?_, ?_⟩ h
          · intro c
            rw [setField_comm E i 4 w c hi, setField_comm E' i 4 w c hi, hE.1]
          · rw [field_setField_ne E i 4 w _ hi, field_setField_ne E' i 4 w _ hi]
            exact hE.2

/-- Clearing `CoverID` commutes with an insertion into the map. -/
theorem mapInsert_map_clearAt (key k : Bytes) (w : GoVal) (m : List (Bytes × GoVal)) :
    (mapInsert k w m).map (clearAt key)
      = mapInsert k (clearAt key (k, w)).2 (m.map (clearAt key)) := by
  induction m with
  | nil => simp [mapInsert, clearAt]
  | cons e m ih =>
    obtain ⟨k1, v1⟩ := e
    by_cases hk : k1 = k
    · simp [mapInsert, clearAt, hk]
    · simp only [mapInsert, if_neg hk, List.map_cons, ih]
      simp [clearAt, mapInsert, hk]

/-- Decoding the members of a `Likes` body respects agreement outside the
`CoverID` of the entry `key`. -/
theorem decodeMap_agree (t : GoType) (key : Bytes) (ms : List (Bytes × JSON))
    (m m' r : List (Bytes × GoVal)) (hm : m.map (clearAt key) = m'.map (clearAt key))
    (h : decodeMap t ms m = some r) :
    ∃ r', decodeMap t ms m' = some r' ∧ r.map (clearAt key) = r'.map (clearAt key) := by
  induction ms generalizing m m' with
  | nil =>
    simp only [decodeMap, Option.some.injEq] at h
    subst h
    exact ⟨m', rfl, hm⟩
  | cons kx ms ih =>
    obtain ⟨k, x⟩ := kx
    simp only [decodeMap] at h ⊢
    cases hv : unmarshal t x (zero t) with
    | none => simp [hv] at h
    | some w =>
      simp only [hv] at h ⊢
      refine ih _ _ ?_ h
      rw [mapInsert_map_clearAt, mapInsert_map_clearAt, hm]

/-- An assignment to a field keeps the number of fields. -/
theorem hasLen_setField (n i : Nat) (v a : GoVal) (h : hasLen n v) :
    hasLen n (v.setField i a) := by
  obtain ⟨l, hl, hn⟩ := h
  subst hl
  exact ⟨l.set i a, rfl, by simpa using hn⟩

/-- Reading a field of a struct after an assignment to it. -/
theorem field_setField_self (n i : Nat) (v a d : GoVal) (h : hasLen n v) (hi : i < n) :
    (v.setField i a).field i d = a := by
  obtain ⟨l, hl, hn⟩ := h
  subst hl
  have h' : i < l.length := by omega
  simp [GoVal.setField, GoVal.field, List.getD, List.getElem?_set_self h']

/-- Decoding into a struct keeps the number of fields. -/
theorem decodeStruct_hasLen (fs : List (String × GoType)) (ms : List (Bytes × JSON))
    (v w : GoVal) (n : Nat) (h : decodeStruct fs ms v = some w) (hv : hasLen n v) :
    hasLen n w := by
  induction ms generalizing v with
  | nil =>
    simp only [decodeStruct, Option.some.injEq] at h
    subst h
    exact hv
  | cons kx ms ih =>
    obtain ⟨k, x⟩ := kx
    simp only [decodeStruct] at h
    cases hf : findField fs k with
    | none =>
      simp only [hf] at h
      exact ih v h hv
    | some it =>
      obtain ⟨i, t⟩ := it
      simp only [hf] at h
      cases hu : unmarshal t x (v.field i (zero t)) with
      | none => simp [hu] at h
      | some u =>
        simp only [hu] at h
        exact ih _ h (hasLen_setField n i v u hv)

/-- Decoding into a struct keeps the number of fields. -/
theorem unmarshal_struct_hasLen (fs : List (String × GoType)) (x : JSON) (v w : GoVal) (n : Nat)
    (h : unmarshal (.struct fs) x v = some w) (hv : hasLen n v) : hasLen n w := by
  cases x with
  | null =>
    simp only [unmarshal, Option.some.injEq] at h
    subst h
    exact hv
  | obj ms =>
    simp only [unmarshal] at h
    exact decodeStruct_hasLen fs ms v w n h hv
  | _ => simp [unmarshal] at h

/-- A field that no member names is left as it was. -/
theorem decodeStruct_field_frame (fs : List (String × GoType)) (ms : List (Bytes × JSON))
    (v w : GoVal) (i : Nat) (d : GoVal) (h : decodeStruct fs ms v = some w)
    (hno : ∀ m ∈ ms, ∀ t, findField fs m.1 ≠ some (i, t)) : w.field i d = v.field i d := by
  induction ms generalizing v with
  | nil =>
    simp only [decodeStruct, Option.some.injEq] at h
    subst h
    rfl
  | cons kx ms ih =>
    obtain ⟨k, x⟩ := kx
    have hno' : ∀ m ∈ ms, ∀ t, findField fs m.1 ≠ some (i, t) :=
      fun m hm => hno m (List.mem_cons_of_mem _ hm)
    simp only [decodeStruct] at h
    cases hf : findField fs k with
    | none =>
      simp only [hf] at h
      exact ih v h hno'
    | some jt =>
      obtain ⟨j, t⟩ := jt
      simp only [hf] at h
      have hji : j ≠ i := by
        intro hji
        subst hji
        exact hno (k, x) (List.mem_cons_self _ _) t hf
      cases hu : unmarshal t x (v.field j (zero t)) with
      | none => simp [hu] at h
      | some u =>
        simp only [hu] at h
        rw [ih _ h hno', field_setField_ne v j i u d hji]

/-- The `Cover` of a `Likes` entry stays a struct of four fields. -/
theorem entry_cover_hasLen (ms : List (Bytes × JSON)) (E F : GoVal)
    (h : decodeStruct likesFields ms E = some F)
    (hE : hasLen 4 (E.field 4 (zero likesCover))) : hasLen 4 (F.field 4 (zero likesCover)) := by
  induction ms generalizing E with
  | nil =>
    simp only [decodeStruct, Option.some.injEq] at h
    subst h
    exact hE
  | cons kx ms ih =>
    obtain ⟨k, x⟩ := kx
    simp only [decodeStruct] at h
    cases hf : findField likesFields k with
    | none =>
      simp only [hf] at h
      exact ih E h hE
    | some it =>
      obtain ⟨i, t⟩ := it
      simp only [hf] at h
      cases hu : unmarshal t x (E.field i (zero t)) with
      | none => simp [hu] at h
      | some u =>
        simp only [hu] at h
        refine ih _ h ?_
        by_cases hi : i = 4
        · subst hi
          have ht := (likesFields_index4 k t hf).1
          subst ht
          have hu4 : hasLen 4 u := unmarshal_struct_hasLen likesCoverFields x _ u 4 hu hE
          rcases field_setField_self_or E 4 u (zero likesCover) with h1 | h1
          · rw [h1]; exact hu4
          · rw [h1]; exact ⟨_, rfl, rfl⟩
        · rw [field_setField_ne E i 4 u _ hi]
          exact hE

/-- Lookup of a key just inserted. -/
theorem mapLookup_mapInsert_self (k : Bytes) (v : GoVal) (m : List (Bytes × GoVal)) :
    mapLookup k (mapInsert k v m) = some v := by
  induction m with
  | nil => simp [mapInsert, mapLookup]
  | cons e m ih =>
    obtain ⟨k1, v1⟩ := e
    by_cases hk : k1 = k
    · simp [mapInsert, mapLookup, hk]
    · simp [mapInsert, mapLookup, hk, ih]

/-- Lookup of a key after the insertion of another key. -/
theorem mapLookup_mapInsert_ne (k k' : Bytes) (v : GoVal) (m : List (Bytes × GoVal))
    (h : k' ≠ k) : mapLookup k (mapInsert k' v m) = mapLookup k m := by
  induction m with
  | nil => simp [mapInsert, mapLookup, h]
  | cons e m ih =>
    obtain ⟨k1, v1⟩ := e
    by_cases hk : k1 = k'
    · subst hk
      simp [mapInsert, mapLookup, h]
    · by_cases hk2 : k1 = k
      · subst hk2
        simp [mapInsert, mapLookup, hk]
      · simp [mapInsert, mapLookup, hk, hk2, ih]

/-- An entry whose key no later member repeats is what the decoded map holds
under that key. -/
theorem decodeMap_lookup (t : GoType) (key : Bytes) (ms : List (Bytes × JSON))
    (m r : List (Bytes × GoVal)) (h : decodeMap t ms m = some r)
    (hno : ∀ e ∈ ms, e.1 ≠ key) : mapLookup key r = mapLookup key m := by
  induction ms generalizing m with
  | nil =>
    simp only [decodeMap, Option.some.injEq] at h
    subst h
    rfl
  | cons kx ms ih =>
    obtain ⟨k, x⟩ := kx
    simp only [decodeMap] at h
    cases hv : unmarshal t x (zero t) with
    | none => simp [hv] at h
    | some w =>
      simp only [hv] at h
      rw [ih _ h (fun e he => hno e (List.mem_cons_of_mem _ he))]
      exact mapLookup_mapInsert_ne key k w m (hno (k, x) (List.mem_cons_self _ _))

/-- A string or a number within `float64` decodes into an `interface{}` as `ifaceOf` says. -/
theorem valueInterface_of_ifaceOf (x : JSON) (w : GoVal) (h : ifaceOf x = some w) :
    valueInterface x = some w := by
  cases x <;> simp_all [ifaceOf, valueInterface]

/-- The key `cover_id` names field 0 of the `Cover` struct. -/
theorem findField_cover_id : findField likesCoverFields (lit "cover_id") = some (0, .iface) := rfl

/-- The key `cover` names field 4 of a `Likes` entry. -/
theorem findField_cover : findField likesFields (lit "cover") = some (4, likesCover) := rfl

/-- Replacing `cover_id` inside a `cover` object. -/
theorem cover_level (c1 c2 : List (Bytes × JSON)) (old new : JSON) (w A B : GoVal)
    (h : unmarshal likesCover (.obj (c1 ++ (lit "cover_id", old) :: c2)) A = some B)
    (hnew : valueInterface new = some w) :
    ∃ B', unmarshal likesCover (.obj (c1 ++ (lit "cover_id", new) :: c2)) A = some B' ∧
      clearCover B = clearCover B' ∧
      (hasLen 4 A → (∀ m ∈ c2, foldName m.1 ≠ foldName (lit "cover_id")) →
        B'.field 0 .nilIface = w) := by
  simp only [unmarshal, likesCover, decodeStruct_append] at h ⊢
  cases hc1 : decodeStruct likesCoverFields c1 A with
  | none => simp [hc1] at h
  | some C1 =>
    simp only [hc1, Option.some_bind, decodeStruct, findField_cover_id, unmarshal_iface] at h ⊢
    cases hold : valueInterface old with
    | none => simp [hold] at h
    | some w0 =>
      simp only [hold] at h
      simp only [hnew]
      obtain ⟨B', hB', hBB⟩ := decodeStruct_agree likesCoverFields 0
        (fun key t hf => (likesCover_index0 key t hf).1) c2 (C1.setField 0 w0)
        (C1.setField 0 w) B (by rw [setField_setField, setField_setField]) h
      refine ⟨B', hB', hBB, ?_⟩
      intro hA hc2
      rw [decodeStruct_field_frame likesCoverFields c2 _ B' 0 .nilIface hB'
        (fun m hm t hf => hc2 m hm (likesCover_index0 m.1 t hf).2.symm)]
      exact field_setField_self 4 0 C1 w _ (decodeStruct_hasLen _ _ _ _ 4 hc1 hA) (by decide)

/-- Replacing `cover_id` inside an entry. -/
theorem entry_level (f1 c1 c2 f2 : List (Bytes × JSON)) (old new : JSON) (w Z V : GoVal)
    (h : unmarshal (.struct likesFields)
      (.obj (f1 ++ (lit "cover", .obj (c1 ++ (lit "cover_id", old) :: c2)) :: f2)) Z = some V)
    (hnew : valueInterface new = some w) :
    ∃ V', unmarshal (.struct likesFields)
        (.obj (f1 ++ (lit "cover", .obj (c1 ++ (lit "cover_id", new) :: c2)) :: f2)) Z = some V' ∧
      AgreeEntry V V' ∧
      (hasLen 30 Z → hasLen 4 (Z.field 4 (zero likesCover)) →
        (∀ m ∈ c2, foldName m.1 ≠ foldName (lit "cover_id")) →
        (∀ m ∈ f2, foldName m.1 ≠ foldName (lit "cover")) →
        (V'.field 4 (zero likesCover)).field 0 .nilIface = w) := by
  simp only [unmarshal, decodeStruct_append] at h ⊢
  cases hf1 : decodeStruct likesFields f1 Z with
  | none => simp [hf1] at h
  | some S =>
    simp only [hf1, Option.some_bind, decodeStruct, findField_cover] at h ⊢
    cases hB : unmarshal likesCover (.obj (c1 ++ (lit "cover_id", old) :: c2))
        (S.field 4 (zero likesCover)) with
    | none => simp [hB] at h
    | some B =>
      simp only [hB] at h
      obtain ⟨B', hB', hBB, hval⟩ := cover_level c1 c2 old new w _ B hB hnew
      simp only [hB']
      have hagree : AgreeEntry (S.setField 4 B) (S.setField 4 B') :=
        ⟨fun c => by rw [setField_setField, setField_setField],
          agree_after_set S S B B' (fun _ => rfl) hBB⟩
      obtain ⟨V', hV', hVV⟩ := decodeStruct_agreeEntry f2 _ _ V hagree h
      refine ⟨V', hV', hVV, ?_⟩
      intro hZ hZ4 hc2 hf2
      have hS : hasLen 30 S := decodeStruct_hasLen _ _ _ _ 30 hf1 hZ
      have hS4 : hasLen 4 (S.field 4 (zero likesCover)) := entry_cover_hasLen f1 Z S hf1 hZ4
      rw [decodeStruct_field_frame likesFields f2 _ V' 4 (zero likesCover) hV'
        (fun m hm t hf => hf2 m hm (likesFields_index4 m.1 t hf).2.symm),
        field_setField_self 30 4 S B' _ hS (by decide)]
      exact hval hS4 hc2

/-- Replacing the `cover_id` of one entry of a `Likes` document by a value
that an `interface{}` accepts: the document still decodes, every other field
is the same, and the `CoverID` of that entry is the new value when no later
member overrides it. -/
theorem likesBody_replace (pre : List (Bytes × JSON)) (key : Bytes)
    (f1 c1 c2 f2 post : List (Bytes × JSON)) (old new : JSON) (w likes : GoVal)
    (h : unmarshal Likes (likesBody pre key f1 c1 old c2 f2 post) (zero Likes) = some likes)
    (hnew : valueInterface new = some w) :
    ∃ likes', unmarshal Likes (likesBody pre key f1 c1 new c2 f2 post) (zero Likes)
        = some likes' ∧
      clearCoverID key likes' = clearCoverID key likes ∧
      ((∀ m ∈ c2, foldName m.1 ≠ foldName (lit "cover_id")) →
        (∀ m ∈ f2, foldName m.1 ≠ foldName (lit "cover")) →
        (∀ m ∈ post, m.1 ≠ key) → coverIDOf key likes' = some w) := by
  have hzero : zero Likes = .nilMap := rfl
  rw [hzero] at h ⊢
  simp only [likesBody, Likes, unmarshal, GoVal.entries, decodeMap_append] at h ⊢
  cases hpre : decodeMap (.struct likesFields) pre [] with
  | none => simp [hpre] at h
  | some m1 =>
    simp only [hpre, Option.some_bind, decodeMap] at h ⊢
    cases hV : unmarshal (.struct likesFields)
        (.obj (f1 ++ (lit "cover", .obj (c1 ++ (lit "cover_id", old) :: c2)) :: f2))
        (zero (.struct likesFields)) with
    | none => simp [hV] at h
    | some V =>
      obtain ⟨V', hV', hVV, hval⟩ := entry_level f1 c1 c2 f2 old new w _ V hV hnew
      simp only [hV, Option.map_eq_some'] at h
      obtain ⟨r, hr, hlikes⟩ := h
      subst hlikes
      simp only [hV']
      have hm : (mapInsert key V m1).map (clearAt key) = (mapInsert key V' m1).map (clearAt key) := by
        rw [mapInsert_map_clearAt, mapInsert_map_clearAt]
        simp [clearAt, agreeEntry_clear V V' hVV]
      obtain ⟨r', hr', hrr⟩ := decodeMap_agree _ key post _ _ r hm hr
      refine ⟨.map r', by simp [hr'], by simp [clearCoverID, hrr], ?_⟩
      intro hc2 hf2 hpost
      have hlook : mapLookup key r' = some V' := by
        rw [decodeMap_lookup _ key post _ r' hr' hpost]
        exact mapLookup_mapInsert_self key V' m1
      simp only [coverIDOf, GoVal.entries, hlook, Option.map_some', Option.some.injEq]
      exact hval ⟨_, rfl, rfl⟩ ⟨_, rfl, rfl⟩ hc2 hf2

/-- A result that is no error is the value `okValue` reads from it. -/
theorem eq_ok_okValue (r : Except Error GoVal) (h : isError r = false) : r = .ok (okValue r) := by
  cases r with
  | error e => simp [isError] at h
  | ok v => rfl

/-! ## The claims -/

/-- C1. Partial-failure isolation: when two batch arrays parse and the second
is the first with the element at position `k` replaced, `LoadData` returns no
error on either and the two profiles agree on every slot other than the one
assigned to position `k` (0 `Me`, 3 `Friends`, 4 `Likes`, 5 `Feed`, 6 `Home`,
7 `Photos`, 8 `Videos`); when `k = 3` and the new element has code 400 the
`Friends` slot is nil. -/
theorem LoadData_partial_failure_isolation (data data' : Bytes) (payload payload' e : GoVal)
    (k : Nat)
    (h : Unmarshal payloadType data .nilSlice = .ok payload)
    (h' : Unmarshal payloadType data' .nilSlice = .ok payload')
    (hk : k < payload.elems.length)
    (hset : payload'.elems = payload.elems.set k e) :
    ∃ p p', LoadData data = .ok p ∧ LoadData data' = .ok p' ∧
      (k ≠ 0 → p'.Me = p.Me) ∧ (k ≠ 3 → p'.Friends = p.Friends) ∧
      (k ≠ 4 → p'.Likes = p.Likes) ∧ (k ≠ 5 → p'.Feed = p.Feed) ∧
      (k ≠ 6 → p'.Home = p.Home) ∧ (k ≠ 7 → p'.Photos = p.Photos) ∧
      (k ≠ 8 → p'.Videos = p.Videos) ∧ p'.Token = p.Token ∧ p'.ID = p.ID ∧
      (k = 3 → (codeOf e).1.toInt = 400 → p'.Friends = none) := by
  obtain ⟨p, hp, ht, hid, hs⟩ := LoadData_of_payload data payload h
  obtain ⟨p', hp', ht', hid', hs'⟩ := LoadData_of_payload data' payload' h'
  have key : ∀ j, j ≠ k → slot p' j = slot p j := by
    intro j hj
    rw [hs, hs', hset, List.getElem?_set_ne (Ne.symm hj)]
  refine ⟨p, p', hp, hp', fun hk0 => key 0 (Ne.symm hk0), fun hk0 => key 3 (Ne.symm hk0),
    fun hk0 => key 4 (Ne.symm hk0), fun hk0 => key 5 (Ne.symm hk0),
    fun hk0 => key 6 (Ne.symm hk0), fun hk0 => key 7 (Ne.symm hk0),
    fun hk0 => key 8 (Ne.symm hk0), ht'.trans ht.symm, hid'.trans hid.symm, ?_⟩
  intro hk3 hcode
  subst hk3
  have h3 : slot p' 3 = none := by
    rw [hs', hset, List.getElem?_set_self hk]
    exact decoded_of_code Friends e (Or.inr (by rw [hcode]; decide))
  exact h3

/-- C1 at a concrete input: four elements, position 3 first succeeding and
then replaced by an element with code 400. -/
theorem LoadData_partial_failure_isolation_witness :
    Unmarshal payloadType batchFriendsOk .nilSlice
        = .ok (.slice [.nilMap, .nilMap, .nilMap, okElem] 4) ∧
    Unmarshal payloadType batchFriends400 .nilSlice
        = .ok (.slice [.nilMap, .nilMap, .nilMap,
            .map [(lit "code", .iface (.float64 ⟨false, 7036874417766400, -44⟩))]] 4) ∧
    ∃ p p', LoadData batchFriendsOk = .ok p ∧ LoadData batchFriends400 = .ok p' ∧
      ((3 : Nat) ≠ 0 → p'.Me = p.Me) ∧ ((3 : Nat) ≠ 3 → p'.Friends = p.Friends) ∧
      ((3 : Nat) ≠ 4 → p'.Likes = p.Likes) ∧ ((3 : Nat) ≠ 5 → p'.Feed = p.Feed) ∧
      ((3 : Nat) ≠ 6 → p'.Home = p.Home) ∧ ((3 : Nat) ≠ 7 → p'.Photos = p.Photos) ∧
      ((3 : Nat) ≠ 8 → p'.Videos = p.Videos) ∧ p'.Token = p.Token ∧ p'.ID = p.ID ∧
      ((3 : Nat) = 3 →
        (codeOf (.map [(lit "code", .iface (.float64 ⟨false, 7036874417766400, -44⟩))])).1.toInt
          = 400 → p'.Friends = none) :=
  ⟨rfl, rfl,
    LoadData_partial_failure_isolation batchFriendsOk batchFriends400
      (.slice [.nilMap, .nilMap, .nilMap, okElem] 4)
      (.slice [.nilMap, .nilMap, .nilMap,
        .map [(lit "code", .iface (.float64 ⟨false, 7036874417766400, -44⟩))]] 4)
      (.map [(lit "code", .iface (.float64 ⟨false, 7036874417766400, -44⟩))]) 3
      rfl rfl (by decide) rfl⟩

/-- C2. When the batch array parses and every element has code 200 and a
string body that decodes against the schema of its position, `LoadData`
returns no error and the slot of every position present in the array holds
the value decoded from the body of the element at that position; with nine
elements all seven slots are non-nil. -/
theorem LoadData_all_succeed (data : Bytes) (payload : GoVal)
    (h : Unmarshal payloadType data .nilSlice = .ok payload)
    (hall : ∀ i d, payload.elems[i]? = some d →
      codeOf d = (code200, true) ∧ (bodyOf d).2 = true ∧
        ∀ t, schema i = some t → ∃ v, unmarshalNew t (bodyOf d).1 = .ok v) :
    ∃ p, LoadData data = .ok p ∧
      (∀ i d t v, payload.elems[i]? = some d → schema i = some t →
        unmarshalNew t (bodyOf d).1 = .ok v → slot p i = some v) ∧
      (9 ≤ payload.elems.length →
        p.Me ≠ none ∧ p.Friends ≠ none ∧ p.Likes ≠ none ∧ p.Feed ≠ none ∧ p.Home ≠ none ∧
          p.Photos ≠ none ∧ p.Videos ≠ none) := by
  obtain ⟨p, hp, _, _, hs⟩ := LoadData_of_payload data payload h
  have key : ∀ i d t v, payload.elems[i]? = some d → schema i = some t →
      unmarshalNew t (bodyOf d).1 = .ok v → slot p i = some v := by
    intro i d t v hd ht hv
    obtain ⟨hc, hb, _⟩ := hall i d hd
    rw [hs, hd]
    simp only [fromElem, ht]
    refine decoded_of_ok t d v ⟨?_, ?_⟩ hb hv
    · rw [hc]
    · rw [hc]; decide
  refine ⟨p, hp, key, ?_⟩
  intro hlen
  have some_slot : ∀ i t, i < 9 → schema i = some t → slot p i ≠ none := by
    intro i t hi ht
    have hi' : i < payload.elems.length := by omega
    have hd : payload.elems[i]? = some payload.elems[i] := List.getElem?_eq_getElem hi'
    obtain ⟨_, _, hdec⟩ := hall i _ hd
    obtain ⟨v, hv⟩ := hdec t ht
    rw [key i _ t v hd ht hv]
    simp
  exact ⟨some_slot 0 Me (by decide) rfl, some_slot 3 Friends (by decide) rfl,
    some_slot 4 Likes (by decide) rfl, some_slot 5 Feed (by decide) rfl,
    some_slot 6 Home (by decide) rfl, some_slot 7 Photos (by decide) rfl,
    some_slot 8 Videos (by decide) rfl⟩

/-- The body `{}` decodes against each of the seven schemas. -/
theorem okElem_decodes (i : Nat) (t : GoType) (ht : schema i = some t) :
    ∃ v, unmarshalNew t (bodyOf okElem).1 = .ok v := by
  unfold schema at ht
  split at ht <;> first
    | (simp only [Option.some.injEq] at ht; subst ht; exact ⟨_, rfl⟩)
    | (simp at ht)

/-- C2 at a concrete input: nine elements with code 200 and the body `{}`. -/
theorem LoadData_all_succeed_witness :
    Unmarshal payloadType batchNine .nilSlice = .ok (.slice (List.replicate 9 okElem) 9) ∧
    ∃ p, LoadData batchNine = .ok p ∧
      (∀ i d t v, (GoVal.slice (List.replicate 9 okElem) 9).elems[i]? = some d →
        schema i = some t → unmarshalNew t (bodyOf d).1 = .ok v → slot p i = some v) ∧
      (9 ≤ (GoVal.slice (List.replicate 9 okElem) 9).elems.length →
        p.Me ≠ none ∧ p.Friends ≠ none ∧ p.Likes ≠ none ∧ p.Feed ≠ none ∧ p.Home ≠ none ∧
          p.Photos ≠ none ∧ p.Videos ≠ none) :=
  ⟨eq_ok_of_okIs _ _ (by decide!),
    LoadData_all_succeed batchNine (.slice (List.replicate 9 okElem) 9)
      (eq_ok_of_okIs _ _ (by decide!))
      (fun i d hd => by
        have hmem : d ∈ List.replicate 9 okElem := by
          have h1 : d ∈ (GoVal.slice (List.replicate 9 okElem) 9).elems :=
            List.getElem?_mem hd
          simpa [GoVal.elems] using h1
        have hd' : d = okElem := List.eq_of_mem_replicate hmem
        subst hd'
        exact ⟨rfl, rfl, fun t ht => okElem_decodes i t ht⟩)⟩

/-- C5. When the batch array parses and the element at a schema position `i`
has code 200 but its body is missing, is not a string, or is a string that
does not decode against the schema of `i`, then `LoadData` returns no error,
the slot of position `i` is nil, and every other slot is still what the
element at its own position yields. -/
theorem LoadData_body_failure (data : Bytes) (payload d : GoVal) (i : Nat) (t : GoType)
    (h : Unmarshal payloadType data .nilSlice = .ok payload)
    (hi : payload.elems[i]? = some d) (ht : schema i = some t)
    (_hcode : (codeOf d).2 = true ∧ (codeOf d).1.toInt = 200)
    (hbody : (bodyOf d).2 = false ∨ isError (unmarshalNew t (bodyOf d).1) = true) :
    ∃ p, LoadData data = .ok p ∧ slot p i = none ∧
      ∀ j, j ≠ i → slot p j = fromElem j payload.elems[j]? := by
  obtain ⟨p, hp, _, _, hs⟩ := LoadData_of_payload data payload h
  refine ⟨p, hp, ?_, fun j _ => hs j⟩
  rw [hs, hi]
  simp only [fromElem, ht]
  exact decoded_of_body t d hbody

/-- C5 at a concrete input: code 200 and the body `oops` at position 0. -/
theorem LoadData_body_failure_witness :
    Unmarshal payloadType batchBadBody .nilSlice = .ok (.slice [badBodyElem] 1) ∧
    (GoVal.slice [badBodyElem] 1).elems[0]? = some badBodyElem ∧ schema 0 = some Me ∧
    ((codeOf badBodyElem).2 = true ∧ (codeOf badBodyElem).1.toInt = 200) ∧
    ((bodyOf badBodyElem).2 = false ∨
      isError (unmarshalNew Me (bodyOf badBodyElem).1) = true) ∧
    ∃ p, LoadData batchBadBody = .ok p ∧ slot p 0 = none ∧
      ∀ j, j ≠ 0 → slot p j = fromElem j (GoVal.slice [badBodyElem] 1).elems[j]? :=
  ⟨rfl, rfl, rfl, ⟨rfl, rfl⟩, Or.inr rfl,
    LoadData_body_failure batchBadBody (.slice [badBodyElem] 1) badBodyElem 0 Me rfl rfl rfl
      ⟨rfl, rfl⟩ (Or.inr rfl)⟩

/-- C6, as stated, fails: the only element of `batchCodeFraction` has the JSON
number 200.5 as its code, which is not 200, and a body that decodes; the `Me`
slot is populated all the same. -/
theorem LoadData_code_fraction_counterexample :
    parseJSON batchCodeFraction
        = some (.arr [.obj [(lit "code", .num ⟨false, 200, 5, 1, none⟩),
            (lit "body", .str (lit "\x7b\x7d"))]]) ∧
    ∃ p, LoadData batchCodeFraction = .ok p ∧ p.Me = some (zero Me) :=
  ⟨rfl, _, rfl, rfl⟩

/-- C6, amended. When the batch array parses and the element at position `i`
has no code, a code that is not a JSON number, or a number code whose
`float64` value with the fraction discarded (Go `int(code)`) is not 200, then
the slot of position `i` is nil, whatever body the element carries. -/
theorem LoadData_code_failure (data : Bytes) (payload d : GoVal) (i : Nat)
    (h : Unmarshal payloadType data .nilSlice = .ok payload)
    (hi : payload.elems[i]? = some d)
    (hcode : (codeOf d).2 = false ∨ (codeOf d).1.toInt ≠ 200) :
    ∃ p, LoadData data = .ok p ∧ slot p i = none := by
  obtain ⟨p, hp, _, _, hs⟩ := LoadData_of_payload data payload h
  refine ⟨p, hp, ?_⟩
  rw [hs, hi]
  unfold fromElem
  cases schema i with
  | none => rfl
  | some t => exact decoded_of_code t d hcode

/-- C6 (amended) at a concrete input: code 400 at position 3. -/
theorem LoadData_code_failure_witness :
    Unmarshal payloadType batchFriends400 .nilSlice
        = .ok (.slice [.nilMap, .nilMap, .nilMap,
            .map [(lit "code", .iface (.float64 ⟨false, 7036874417766400, -44⟩))]] 4) ∧
    ∃ p, LoadData batchFriends400 = .ok p ∧ slot p 3 = none :=
  ⟨rfl,
    LoadData_code_failure batchFriends400
      (.slice [.nilMap, .nilMap, .nilMap,
        .map [(lit "code", .iface (.float64 ⟨false, 7036874417766400, -44⟩))]] 4)
      (.map [(lit "code", .iface (.float64 ⟨false, 7036874417766400, -44⟩))]) 3 rfl rfl
      (Or.inr (by decide))⟩

/-- C7. `Request` with the empty token returns a nil profile and the error
`token is empty`, whatever the query type and whatever function
`facebookRequest` holds; the record of calls to the HTTP collaborator is
returned unchanged, so nothing was invoked. -/
theorem Request_empty_token
    (fbRequest : Transport → Bytes → List PostCall → Except Error Bytes × List PostCall)
    (f : Facebook) (queryType : Bytes) (calls : List PostCall) :
    Request fbRequest f [] queryType calls
      = (.error (.errorf (lit "token is empty")), calls) := by
  simp [Request]

/-- C8. For a non-empty token and a query type other than `full` and `lite`,
`facebookRequest` returns the not-found error built from the key without any
call to the HTTP collaborator, and `Request` returns a nil profile and that
error; for `full` and `lite` the catalog lookup succeeds. -/
theorem Request_unknown_query (client : HTTPClient) (f : Facebook)
    (token queryType : Bytes) (calls : List PostCall)
    (ht : token ≠ []) (hfull : queryType ≠ lit "full") (hlite : queryType ≠ lit "lite") :
    facebookRequest client ⟨f.Config, token⟩ queryType calls
        = (.error (.errorf (lit "facebook query definition not found: " ++ queryType)), calls) ∧
    Request (facebookRequest client) f token queryType calls
        = (.error (.errorf (lit "facebook query definition not found: " ++ queryType)), calls) ∧
    requestTypes (lit "full") = some (lit fullQuery) ∧
    requestTypes (lit "lite") = some (lit liteQuery) := by
  have hreq : requestTypes queryType = none := by simp [requestTypes, hfull, hlite]
  have hfr : facebookRequest client ⟨f.Config, token⟩ queryType calls
      = (.error (.errorf (lit "facebook query definition not found: " ++ queryType)), calls) := by
    simp [facebookRequest, hreq]
  refine ⟨hfr, ?_, ?_, ?_⟩
  · simp only [Request, ht, if_false, hfr]
  · simp [requestTypes]
  · have hne : lit "lite" ≠ lit "full" := by decide
    simp [requestTypes, hne]

/-- C8 at a concrete input: the token `t` and the key `unknown-key`. -/
theorem Request_unknown_query_witness :
    lit "t" ≠ [] ∧ lit "unknown-key" ≠ lit "full" ∧ lit "unknown-key" ≠ lit "lite" ∧
    (facebookRequest emptyBatchClient ⟨sampleFacebook.Config, lit "t"⟩ (lit "unknown-key") []
        = (.error (.errorf (lit "facebook query definition not found: " ++ lit "unknown-key")),
            []) ∧
    Request (facebookRequest emptyBatchClient) sampleFacebook (lit "t") (lit "unknown-key") []
        = (.error (.errorf (lit "facebook query definition not found: " ++ lit "unknown-key")),
            []) ∧
    requestTypes (lit "full") = some (lit fullQuery) ∧
    requestTypes (lit "lite") = some (lit liteQuery)) :=
  ⟨by decide, by decide, by decide,
    Request_unknown_query emptyBatchClient sampleFacebook (lit "t") (lit "unknown-key") []
      (by decide) (by decide) (by decide)⟩

/-- C10, as stated, fails: `Request` with the token `t` and the key `full`
succeeds when the collaborator answers `[]`, and the `Token` of the returned
profile is empty, not `t`. -/
theorem Request_token_counterexample :
    ∃ p calls, Request (facebookRequest emptyBatchClient) sampleFacebook (lit "t") (lit "full") []
        = (.ok p, calls) ∧ p.Token = [] ∧ p.Token ≠ lit "t" :=
  ⟨_, _, rfl, rfl, by decide⟩

/-- C10, amended. Whenever `Request` succeeds, the token passed to it is not
empty and the `Token` and `ID` of the returned profile are empty: neither
`Request` nor `LoadData` stores the token in the profile. -/
theorem Request_token_not_stored
    (fbRequest : Transport → Bytes → List PostCall → Except Error Bytes × List PostCall)
    (f : Facebook) (token queryType : Bytes) (calls calls' : List PostCall) (p : Profile)
    (h : Request fbRequest f token queryType calls = (.ok p, calls')) :
    token ≠ [] ∧ p.Token = [] ∧ p.ID = [] ∧ p.Token ≠ token := by
  unfold Request at h
  by_cases ht : token = []
  · simp [ht] at h
  · simp only [ht, if_false] at h
    cases hr : fbRequest ⟨f.Config, token⟩ queryType calls with
    | mk r calls1 =>
      cases r with
      | error err => simp [hr] at h
      | ok resp =>
        simp only [hr] at h
        cases hl : LoadData resp with
        | error err => simp [hl] at h
        | ok profile =>
          simp only [hl, Prod.mk.injEq, Except.ok.injEq] at h
          obtain ⟨hp, _⟩ := h
          subst hp
          obtain ⟨h1, h2⟩ := LoadData_token resp profile hl
          refine ⟨ht, h1, h2, ?_⟩
          rw [h1]
          exact fun hc => ht hc.symm

/-- C10 (amended) at a concrete input. -/
theorem Request_token_not_stored_witness :
    Request (facebookRequest emptyBatchClient) sampleFacebook (lit "t") (lit "full") []
        = (.ok {}, [⟨lit "https://graph.facebook.com",
            Values.set (lit "batch") (lit fullQuery) (Values.set (lit "access_token") (lit "t") [])⟩]) ∧
    (lit "t" ≠ [] ∧ ({} : Profile).Token = [] ∧ ({} : Profile).ID = [] ∧
      ({} : Profile).Token ≠ lit "t") :=
  ⟨rfl,
    Request_token_not_stored (facebookRequest emptyBatchClient) sampleFacebook (lit "t")
      (lit "full") []
      [⟨lit "https://graph.facebook.com",
        Values.set (lit "batch") (lit fullQuery) (Values.set (lit "access_token") (lit "t") [])⟩]
      {} rfl⟩

/-- C3, as stated, fails: the input `null` is well-formed JSON whose top-level
value is not an array, and `LoadData` returns an empty profile and no
error. -/
theorem LoadData_null_counterexample :
    parseJSON (lit "null") = some .null ∧ (∀ xs, parseJSON (lit "null") ≠ some (.arr xs)) ∧
    LoadData (lit "null") = .ok {} :=
  have hp : parseJSON (lit "null") = some .null := rfl
  have hn : ∀ xs, parseJSON (lit "null") ≠ some (.arr xs) :=
    fun xs h => by rw [hp] at h; cases h
  ⟨hp, hn, rfl⟩

/-- C3, amended. For every input that is not a JSON array: malformed JSON
gives a syntax error, a top-level object, string, number or boolean gives a
type error, both with a nil profile; a top-level `null` gives an empty profile
and no error. -/
theorem LoadData_not_array (data : Bytes) (h : ∀ xs, parseJSON data ≠ some (.arr xs)) :
    (parseJSON data = none → LoadData data = .error .syntaxError) ∧
    (∀ j, parseJSON data = some j → j ≠ .null → LoadData data = .error .unmarshalTypeError) ∧
    (parseJSON data = some .null → LoadData data = .ok {}) := by
  refine ⟨?_, ?_, ?_⟩
  · intro hp
    simp [LoadData, Unmarshal, hp]
  · intro j hp hj
    cases j with
    | null => exact absurd rfl hj
    | arr xs => exact absurd hp (h xs)
    | _ => simp [LoadData, Unmarshal, hp, unmarshal, payloadType]
  · intro hp
    simp [LoadData, Unmarshal, hp, unmarshal, payloadType, GoVal.elems, loadLoop]

/-- C3 (amended) at a concrete input: the empty object. -/
theorem LoadData_not_array_witness :
    (∀ xs, parseJSON (lit "\x7b\x7d") ≠ some (.arr xs)) ∧
    LoadData (lit "\x7b\x7d") = .error .unmarshalTypeError :=
  have hp : parseJSON (lit "\x7b\x7d") = some (.obj []) := rfl
  have hn : ∀ xs, parseJSON (lit "\x7b\x7d") ≠ some (.arr xs) :=
    fun xs h => by rw [hp] at h; cases h
  ⟨hn, (LoadData_not_array (lit "\x7b\x7d") hn).2.1 (.obj []) hp (fun h => by cases h)⟩

/-- C4, as stated, fails: `[1]` is a well-formed JSON array whose element is
a number, and `LoadData` returns an error and a nil profile. -/
theorem LoadData_number_entry_counterexample :
    parseJSON (lit "[1]") = some (.arr [.num ⟨false, 1, 0, 0, none⟩]) ∧
    LoadData (lit "[1]") = .error .unmarshalTypeError :=
  ⟨rfl, rfl⟩

/-- C4, amended. On a well-formed JSON array `LoadData` returns a profile and
no error when every element is `null` or an object in which every number is
within `float64`, whatever the fields of the objects are; when some element is
anything else (a number, a string, a boolean, a nested array, an object
holding a number outside `float64`) it returns a type error and a nil
profile. -/
theorem LoadData_array_entries (data : Bytes) (xs : List JSON)
    (h : parseJSON data = some (.arr xs)) :
    (xs.all elemFits = true → ∃ p, LoadData data = .ok p) ∧
    (xs.all elemFits = false → LoadData data = .error .unmarshalTypeError) := by
  have key := unmarshal_payload_arr xs
  constructor
  · intro hall
    rw [hall] at key
    cases hu : unmarshal payloadType (.arr xs) .nilSlice with
    | none => simp [hu] at key
    | some payload =>
      exact ⟨loadLoop 0 payload.elems {}, by simp [LoadData, Unmarshal, h, hu]⟩
  · intro hall
    rw [hall] at key
    cases hu : unmarshal payloadType (.arr xs) .nilSlice with
    | none => simp [LoadData, Unmarshal, h, hu]
    | some payload => simp [hu] at key

/-- C4 (amended) at a concrete input: an object with wrongly typed fields, a
`null` and an empty object. -/
theorem LoadData_array_entries_witness :
    parseJSON batchOddEntries
        = some (.arr [.obj [(lit "code", .str (lit "x")),
            (lit "body", .num ⟨false, 7, 0, 0, none⟩)], .null, .obj []]) ∧
    ∃ p, LoadData batchOddEntries = .ok p :=
  ⟨rfl, (LoadData_array_entries batchOddEntries _ rfl).1 (by decide!)⟩

/-- C9, as stated, fails: the body with the string `a` as `cover_id` decodes,
the body in which that `cover_id` is replaced by the JSON number `1e999` does
not, and a code-200 element carrying it at position 4 leaves the `Likes` slot
nil. -/
theorem Likes_cover_id_counterexample :
    parseJSON likesBodyString
        = some (likesBody [] (lit "1") [] [] (.str (lit "a")) [] [] []) ∧
    parseJSON likesBodyHuge
        = some (likesBody [] (lit "1") [] [] (.num ⟨false, 1, 0, 0, some 999⟩) [] [] []) ∧
    isError (unmarshalNew Likes likesBodyString) = false ∧
    isError (unmarshalNew Likes likesBodyHuge) = true ∧
    Unmarshal payloadType batchLikesHuge .nilSlice
        = .ok (.slice [.nilMap, .nilMap, .nilMap, .nilMap,
            .map [(lit "code", .iface (.float64 code200)),
              (lit "body", .iface (.string likesBodyHuge))]] 5) ∧
    likesSlotNil (LoadData batchLikesHuge) = true :=
  ⟨rfl, rfl, by decide!, by decide!, eq_ok_of_okIs _ _ (by decide!), by decide!⟩

/-- C9, amended. For every `Likes` body that decodes, replacing the
`cover.cover_id` of an entry by a JSON string, or by a JSON number within
`float64`, gives a body that also decodes, with the same value in every other
field; the `CoverID` of that entry then holds the string, respectively the
`float64` nearest to the number, provided no later member of the `cover`
object is again named `cover_id`, no later member of the entry is again named
`cover` (letter case ignored) and no later entry has the same key. A code-200
element at position 4 carrying the new body populates the `Likes` slot. -/
theorem Likes_cover_id_any_type (body body' : Bytes) (pre : List (Bytes × JSON)) (key : Bytes)
    (f1 c1 c2 f2 post : List (Bytes × JSON)) (old new : JSON) (w likes : GoVal)
    (hb : parseJSON body = some (likesBody pre key f1 c1 old c2 f2 post))
    (hb' : parseJSON body' = some (likesBody pre key f1 c1 new c2 f2 post))
    (hd : unmarshalNew Likes body = .ok likes)
    (hnew : ifaceOf new = some w) :
    ∃ likes', unmarshalNew Likes body' = .ok likes' ∧
      clearCoverID key likes' = clearCoverID key likes ∧
      ((∀ m ∈ c2, foldName m.1 ≠ foldName (lit "cover_id")) →
        (∀ m ∈ f2, foldName m.1 ≠ foldName (lit "cover")) →
        (∀ m ∈ post, m.1 ≠ key) → coverIDOf key likes' = some w) ∧
      (∀ data payload d, Unmarshal payloadType data .nilSlice = .ok payload →
        payload.elems[4]? = some d → (codeOf d).2 = true → (codeOf d).1.toInt = 200 →
        bodyOf d = (body', true) → ∃ p, LoadData data = .ok p ∧ p.Likes = some likes') := by
  have hold : unmarshal Likes (likesBody pre key f1 c1 old c2 f2 post) (zero Likes)
      = some likes := by
    simp only [unmarshalNew, Unmarshal, hb] at hd
    cases hu : unmarshal Likes (likesBody pre key f1 c1 old c2 f2 post) (zero Likes) with
    | none => simp [hu] at hd
    | some v =>
      simp only [hu, Except.ok.injEq] at hd
      rw [hd]
  obtain ⟨likes', h1, h2, h3⟩ := likesBody_replace pre key f1 c1 c2 f2 post old new w likes
    hold (valueInterface_of_ifaceOf new w hnew)
  have hnewdec : unmarshalNew Likes body' = .ok likes' := by
    simp only [unmarshalNew, Unmarshal, hb', h1]
  refine ⟨likes', hnewdec, h2, h3, ?_⟩
  intro data payload d hp hd4 hc1 hc2 hbody
  obtain ⟨p, hp1, _, _, hs⟩ := LoadData_of_payload data payload hp
  refine ⟨p, hp1, ?_⟩
  have h4 := hs 4
  rw [hd4] at h4
  have hbody1 : (bodyOf d).1 = body' := by rw [hbody]
  have hbody2 : (bodyOf d).2 = true := by rw [hbody]
  have hdec : decoded Likes d = some likes' :=
    decoded_of_ok Likes d likes' ⟨hc1, hc2⟩ hbody2 (by rw [hbody1]; exact hnewdec)
  exact h4.trans hdec

/-- C9 (amended) at a concrete input: the `cover_id` `"a"` replaced by the
number 12. -/
theorem Likes_cover_id_any_type_witness :
    parseJSON likesBodyString
        = some (likesBody [] (lit "1") [] [] (.str (lit "a")) [] [] []) ∧
    parseJSON likesBodyNumber
        = some (likesBody [] (lit "1") [] [] (.num ⟨false, 12, 0, 0, none⟩) [] [] []) ∧
    unmarshalNew Likes likesBodyString = .ok (okValue (unmarshalNew Likes likesBodyString)) ∧
    ifaceOf (.num ⟨false, 12, 0, 0, none⟩)
        = some (.iface (.float64 ⟨false, 6755399441055744, -49⟩)) ∧
    ∃ likes', unmarshalNew Likes likesBodyNumber = .ok likes' ∧
      clearCoverID (lit "1") likes'
        = clearCoverID (lit "1") (okValue (unmarshalNew Likes likesBodyString)) ∧
      ((∀ m ∈ ([] : List (Bytes × JSON)), foldName m.1 ≠ foldName (lit "cover_id")) →
        (∀ m ∈ ([] : List (Bytes × JSON)), foldName m.1 ≠ foldName (lit "cover")) →
        (∀ m ∈ ([] : List (Bytes × JSON)), m.1 ≠ lit "1") →
        coverIDOf (lit "1") likes'
          = some (.iface (.float64 ⟨false, 6755399441055744, -49⟩))) ∧
      (∀ data payload d, Unmarshal payloadType data .nilSlice = .ok payload →
        payload.elems[4]? = some d → (codeOf d).2 = true → (codeOf d).1.toInt = 200 →
        bodyOf d = (likesBodyNumber, true) →
        ∃ p, LoadData data = .ok p ∧ p.Likes = some likes') :=
  ⟨rfl, rfl, eq_ok_okValue _ (by decide!), rfl,
    Likes_cover_id_any_type likesBodyString likesBodyNumber [] (lit "1") [] [] [] [] []
      (.str (lit "a")) (.num ⟨false, 12, 0, 0, none⟩)
      (.iface (.float64 ⟨false, 6755399441055744, -49⟩))
      (okValue (unmarshalNew Likes likesBodyString)) rfl rfl
      (eq_ok_okValue _ (by decide!)) rfl⟩

end facebook
